import Mathlib

/-!
Verification development for the SmartIntern MCP server (TypeScript).

Shallow embedding of:
* the Slack events Express server (`events/server.ts`): JSON-body signature
  verification middleware and the `/slack/events` endpoint;
* the MCP tool error wrapper (`mcp/tools/errors.ts`);
* the database repository (`db/repository.ts`) over an explicit relational
  state, with Postgres `INSERT ... ON CONFLICT` upsert semantics;
* the meeting-notes / action-item extraction logic (`mcp/tools/notes.ts`),
  including a faithful executable model of the two JavaScript regexes used.

Strings are modelled as `List Char`; machine floats appearing only as parsed
decimal timestamps are modelled exactly as rationals; the HMAC function and
the Slack SDK are external collaborators and appear as parameters.
-/

namespace SI

/-! ## Character-level helpers (JavaScript semantics) -/

/-- Model of the JavaScript regex character class `\w` = `[A-Za-z0-9_]`. -/
def wordChar (c : Char) : Bool :=
  (decide (97 ≤ c.toNat) && decide (c.toNat ≤ 122)) ||
  (decide (65 ≤ c.toNat) && decide (c.toNat ≤ 90)) ||
  (decide (48 ≤ c.toNat) && decide (c.toNat ≤ 57)) ||
  (c == '_')

/-- Line terminators that the JavaScript regex `.` (without the `s` flag) does
NOT match: `\n`, `\r`, U+2028, U+2029. -/
def isLineTerm (c : Char) : Bool :=
  c == '\n' || c == '\r' || c == Char.ofNat 0x2028 || c == Char.ofNat 0x2029

/-- Lowercasing of ASCII letters, modelling `String.prototype.toLowerCase` and
the regex `i` flag on the ASCII text the patterns consist of. -/
def lowerA (c : Char) : Char :=
  if 65 ≤ c.toNat ∧ c.toNat ≤ 90 then Char.ofNat (c.toNat + 32) else c

/-- Model of the capture class `[A-Z0-9]` from `/<@([A-Z0-9]+)>/`. -/
def isCapAlnum (c : Char) : Bool :=
  (decide (65 ≤ c.toNat) && decide (c.toNat ≤ 90)) ||
  (decide (48 ≤ c.toNat) && decide (c.toNat ≤ 57))

/-- Numeric value of a digit string (most significant first). -/
def digitsVal (l : List Char) : Nat :=
  l.foldl (fun a c => 10 * a + (c.toNat - 48)) 0

/-- Whitespace skipped by `parseInt` / `parseFloat`. -/
def isWsJS (c : Char) : Bool :=
  c == ' ' || c == '\t' || c == '\n' || c == '\r'

/-- Model of JavaScript `parseInt(s)` (radix 10): skip leading whitespace,
optional sign, then a maximal run of decimal digits; `none` models `NaN`. -/
def parseIntJS (s : List Char) : Option Int :=
  let t := s.dropWhile isWsJS
  match t with
  | '-' :: r =>
      let ds := r.takeWhile Char.isDigit
      if ds.isEmpty then none else some (-(digitsVal ds : Int))
  | '+' :: r =>
      let ds := r.takeWhile Char.isDigit
      if ds.isEmpty then none else some ((digitsVal ds : Int))
  | _ =>
      let ds := t.takeWhile Char.isDigit
      if ds.isEmpty then none else some ((digitsVal ds : Int))

/-- An exact decimal number `num / 10 ^ exp`, the value of a parsed decimal
literal (this idealizes the IEEE double produced by `parseFloat`, which is
exact enough for every comparison the program performs on timestamps). -/
structure Dec10 where
  num : Int
  exp : Nat
deriving DecidableEq

/-- Ordering of exact decimals by cross multiplication. -/
def decLe (a b : Dec10) : Bool :=
  decide (a.num * (10 : Int) ^ b.exp ≤ b.num * (10 : Int) ^ a.exp)

/-- Model of JavaScript `parseFloat(s)` on decimal literals (the only inputs
the program feeds it are Slack timestamp strings such as
`"1234567890.123456"`): skip whitespace, optional sign, integer part,
optional fraction.  `none` models `NaN`. -/
def parseFloatDec (s : List Char) : Option Dec10 :=
  let t := s.dropWhile isWsJS
  let sgn : Int := match t with
    | '-' :: _ => -1
    | _ => 1
  let t2 : List Char := match t with
    | '-' :: r => r
    | '+' :: r => r
    | _ => t
  let ip := t2.takeWhile Char.isDigit
  let rest := t2.dropWhile Char.isDigit
  match rest with
  | '.' :: fr =>
      let fp := fr.takeWhile Char.isDigit
      if ip.isEmpty && fp.isEmpty then none
      else some ⟨sgn * ((digitsVal ip : Int) * (10 : Int) ^ fp.length +
        (digitsVal fp : Int)), fp.length⟩
  | _ => if ip.isEmpty then none else some ⟨sgn * (digitsVal ip : Int), 0⟩

/-! ## Slack events server: signature-verification middleware

Embedding of the Express middleware in `events/server.ts`:

```
const timestamp = req.headers['x-slack-request-timestamp'];
const signature = req.headers['x-slack-signature'];
if (!timestamp || !signature) return res.status(400).send('Missing Slack signature headers');
const fiveMinutesAgo = Math.floor(Date.now() / 1000) - (60 * 5);
if (parseInt(timestamp as string) < fiveMinutesAgo) return res.status(400).send('Ignore stale request');
const sigBasestring = `v0:` + timestamp + `:` + req.rawBody.toString();
const hmac = crypto.createHmac('sha256', config.slack.signingSecret as string);
hmac.update(sigBasestring);
const mySignature = `v0=` + hmac.digest('hex');
if (!crypto.timingSafeEqual(Buffer.from(mySignature), Buffer.from(signature as string)))
  return res.status(401).send('Invalid signature');
next();
```

`crypto.timingSafeEqual` throws when the two buffers have different byte
lengths; `hmac.digest('hex')` is abstracted as a parameter (its output is a
64-character hex string).  All header and body characters are ASCII, so byte
length equals character count. -/

/-- Request as seen by the middleware: the two Slack headers (absent = `none`)
and the raw body. -/
structure SlackRequest where
  timestampHdr : Option (List Char)
  signatureHdr : Option (List Char)
  rawBody : List Char
deriving DecidableEq

/-- Outcome of the middleware: a 400 response, a 401 response, an uncaught
exception thrown inside the middleware, or passing control to the events
endpoint (`next()`). -/
inductive MwOutcome where
  | badRequest (msg : String)
  | unauthorized
  | thrown
  | next
deriving DecidableEq

/-- JavaScript truthiness test for an optional string, as in
`if (!timestamp || !signature)` and `if (status)`: an absent value and the
empty string are both falsy. -/
def jsFalsy : Option (List Char) → Bool
  | none => true
  | some [] => true
  | some (_ :: _) => false

/-- Signature base string `v0:<timestamp>:<raw body>`. -/
def sigBaseOf (req : SlackRequest) : List Char :=
  "v0:".toList ++ req.timestampHdr.getD [] ++ ":".toList ++ req.rawBody

/-- Computed signature `v0=` + hex digest, for a given HMAC-SHA256-hex
function and signing secret. -/
def computedSigOf (hmacHex : List Char → List Char → List Char)
    (secret : List Char) (req : SlackRequest) : List Char :=
  "v0=".toList ++ hmacHex secret (sigBaseOf req)

/-- The header-presence test `!timestamp || !signature`. -/
def missingHdrs (req : SlackRequest) : Bool :=
  jsFalsy req.timestampHdr || jsFalsy req.signatureHdr

/-- The staleness test `parseInt(timestamp) < fiveMinutesAgo` where
`fiveMinutesAgo = Math.floor(Date.now()/1000) - 60*5`.  A timestamp header
that does not parse as a number gives `NaN`, and a `NaN` comparison is false,
so such a request is not treated as stale. -/
def staleFlag (nowSec : Int) (req : SlackRequest) : Bool :=
  match parseIntJS (req.timestampHdr.getD []) with
  | some n => decide (n < nowSec - 60 * 5)
  | none => false

/-- The signature-verification middleware.  `nowSec` is
`Math.floor(Date.now() / 1000)`. -/
def verifyMiddleware (hmacHex : List Char → List Char → List Char)
    (secret : List Char) (nowSec : Int) (req : SlackRequest) : MwOutcome :=
  if missingHdrs req then .badRequest "Missing Slack signature headers"
  else if staleFlag nowSec req then .badRequest "Ignore stale request"
  else if (computedSigOf hmacHex secret req).length ≠
      (req.signatureHdr.getD []).length then .thrown
  else if computedSigOf hmacHex secret req ≠ req.signatureHdr.getD [] then
    .unauthorized
  else .next

/-! ## Slack message objects and database rows

The `messages` table schema (`db/models.ts`):
`id SERIAL PRIMARY KEY, slack_id TEXT UNIQUE NOT NULL, channel_id INTEGER,
user_id TEXT, text TEXT, timestamp TIMESTAMP, thread_ts TEXT,
has_attachments BOOLEAN`; the `channels` table:
`id SERIAL PRIMARY KEY, slack_id TEXT UNIQUE NOT NULL, name TEXT,
is_private BOOLEAN`.  `SERIAL` ids are modelled by per-table counters starting
at 1; the `TIMESTAMP` column stores the rational value of
`new Date(parseFloat(ts) * 1000)` (`none` models an invalid date); nullable
columns are `Option`s. -/

/-- A Slack message object as delivered by the Slack SDK or an event payload.
Fields the code reads through `?? ''` or truthiness tests are `Option`s. -/
structure SlackMsg where
  ts : Option (List Char)
  user : Option (List Char)
  text : Option (List Char)
  thread_ts : Option (List Char)
  attachments : Option (List Unit)
deriving DecidableEq

/-- Channel data passed to `storeChannel` (`{ id, name, is_private }`).  The
`is_private` flag is `Option` because the `message` branch of the events
endpoint passes `channelInfo.is_private` without a default. -/
structure ChannelIn where
  id : List Char
  name : List Char
  is_private : Option Bool
deriving DecidableEq

/-- Row of the `channels` table. -/
structure ChannelRow where
  id : Nat
  slack_id : List Char
  name : List Char
  is_private : Option Bool
deriving DecidableEq

/-- Row of the `messages` table. -/
structure MessageRow where
  id : Nat
  slack_id : List Char
  channel_id : Nat
  user_id : Option (List Char)
  text : Option (List Char)
  timestamp : Option Dec10
  thread_ts : Option (List Char)
  has_attachments : Bool
deriving DecidableEq

/-- An extracted action item as pushed by the notes tools
(`{ description, assignee }`, plus `message_ts` in `extract_action_items`). -/
structure NoteItem where
  description : List Char
  assignee : Option (List Char)
  message_ts : Option (List Char)
deriving DecidableEq

/-- Action-item data passed to `storeActionItem`
(`{ description, assignee?, due_date?, status? }`). -/
structure ActionItemIn where
  description : List Char
  assignee : Option (List Char)
  due_date : Option (List Char)
  status : Option (List Char)
deriving DecidableEq

/-- Row of the `action_items` table.  The `due_date` column keeps the input
date string (ISO-date parsing by `new Date` is external and injective on the
inputs the program produces). -/
structure ActionItemRow where
  id : Nat
  description : List Char
  assignee : Option (List Char)
  due_date : Option (List Char)
  status : List Char
  channel_id : Nat
  message_id : Option Nat
deriving DecidableEq

/-- Meeting-notes data passed to `storeMeetingNotes`. -/
structure NotesIn where
  title : List Char
  summary : List Char
  start_ts : List Char
  end_ts : List Char
  participants : List (List Char)
  action_items : List NoteItem
  decisions : List (List Char × Option (List Char))
deriving DecidableEq

/-- Row of the `meeting_notes` table; the two `JSONB` columns hold the
structured values that were `JSON.stringify`-ed. -/
structure MeetingNotesRow where
  id : Nat
  title : List Char
  summary : List Char
  channel_id : Nat
  start_ts : List Char
  end_ts : List Char
  participants : List (List Char)
  action_items : List NoteItem
  decisions : List (List Char × Option (List Char))
deriving DecidableEq

/-- The relational store: the four tables written by the repository, with one
`SERIAL` counter per table. -/
structure Database where
  channels : List ChannelRow
  messages : List MessageRow
  meetingNotes : List MeetingNotesRow
  actionItems : List ActionItemRow
  nextChannelId : Nat
  nextMessageId : Nat
  nextNotesId : Nat
  nextItemId : Nat
deriving DecidableEq

/-- The empty database produced by `initializeDatabase` (SERIAL counters start
at 1). -/
def initialDb : Database := ⟨[], [], [], [], 1, 1, 1, 1⟩

/-! ## Repository operations (`db/repository.ts`)

Each `storeX` method issues one parameterized statement; the two upserts use
`ON CONFLICT (slack_id) DO UPDATE`, which Postgres resolves against the
`UNIQUE (slack_id)` constraint: if a row with the key exists it is updated by
the `SET` list, otherwise a fresh row is inserted; `RETURNING id` yields the
affected row's id. -/

/-- Embedding of `storeChannel`:
`INSERT INTO channels (slack_id, name, is_private) VALUES ($1,$2,$3)
 ON CONFLICT (slack_id) DO UPDATE SET name = $2, is_private = $3
 RETURNING id`: the row conflicting on `slack_id` receives the new name and
privacy flag. -/
def updChannel (c : ChannelIn) (x : ChannelRow) : ChannelRow :=
  if x.slack_id == c.id then
    { x with name := c.name, is_private := c.is_private }
  else x

/-- Embedding of `storeChannel`: upsert keyed on `slack_id`, returning the
affected row's id. -/
def storeChannelDb (c : ChannelIn) (db : Database) : Nat × Database :=
  match db.channels.find? (fun r => r.slack_id == c.id) with
  | some r =>
      (r.id, { db with channels := db.channels.map (updChannel c) })
  | none =>
      (db.nextChannelId, { db with
        channels := db.channels ++
          [⟨db.nextChannelId, c.id, c.name, c.is_private⟩],
        nextChannelId := db.nextChannelId + 1 })

/-- Embedding of `storeMessage`:
`INSERT INTO messages (slack_id, channel_id, user_id, text, timestamp,
 thread_ts, has_attachments) VALUES ($1,...,$7)
 ON CONFLICT (slack_id) DO UPDATE SET text = $4 RETURNING id`,
with `$1 = messageData.ts`, `$5 = new Date(parseFloat(messageData.ts)*1000)`,
`$7 = !!messageData.attachments`.  On conflict only the `text` column is in
the `SET` list. -/
def updMessageText (m : SlackMsg) (x : MessageRow) : MessageRow :=
  if x.slack_id == m.ts.getD [] then { x with text := m.text } else x

/-- Embedding of `storeMessage`: upsert keyed on the message `ts`, returning
the affected row's id. -/
def storeMessageDb (m : SlackMsg) (channelId : Nat) (db : Database) :
    Nat × Database :=
  match db.messages.find? (fun r => r.slack_id == m.ts.getD []) with
  | some r =>
      (r.id, { db with messages := db.messages.map (updMessageText m) })
  | none =>
      (db.nextMessageId, { db with
        messages := db.messages ++
          [⟨db.nextMessageId, m.ts.getD [], channelId, m.user, m.text,
            (parseFloatDec (m.ts.getD [])).map (fun d => ⟨d.num * 1000, d.exp⟩), m.thread_ts,
            m.attachments.isSome⟩],
        nextMessageId := db.nextMessageId + 1 })

/-- Embedding of `storeMeetingNotes` (plain `INSERT ... RETURNING id`). -/
def storeMeetingNotesDb (n : NotesIn) (channelId : Nat) (db : Database) :
    Nat × Database :=
  (db.nextNotesId, { db with
    meetingNotes := db.meetingNotes ++
      [⟨db.nextNotesId, n.title, n.summary, channelId, n.start_ts, n.end_ts,
        n.participants, n.action_items, n.decisions⟩],
    nextNotesId := db.nextNotesId + 1 })

/-- Status defaulting in `storeActionItem`: `actionItem.status || 'open'`
(absent and empty-string statuses are falsy). -/
def statusOrOpen : Option (List Char) → List Char
  | none => "open".toList
  | some s => if s.isEmpty then "open".toList else s

/-- Embedding of `storeActionItem` (plain `INSERT ... RETURNING id`; the
`message_id` parameter is optional and `undefined` becomes SQL `NULL`). -/
def storeActionItemDb (it : ActionItemIn) (channelId : Nat)
    (messageId : Option Nat) (db : Database) : Nat × Database :=
  (db.nextItemId, { db with
    actionItems := db.actionItems ++
      [⟨db.nextItemId, it.description, it.assignee, it.due_date,
        statusOrOpen it.status, channelId, messageId⟩],
    nextItemId := db.nextItemId + 1 })

/-- The status enum `{open, completed, blocked}` of the data model. -/
def statusEnum : List (List Char) :=
  ["open".toList, "completed".toList, "blocked".toList]

/-- Embedding of the update mode of the `track_follow_up_status` tool
(`mcp/tools/follow-up.ts`): validate `new_status` before the `UPDATE`
(throwing leaves the table unchanged), then
`UPDATE action_items SET status = $1 WHERE id = $2` followed by a `SELECT`
that throws when the id does not exist (the `UPDATE` then affected no row).
The result pairs the new table state with a thrown error message, if any. -/
def updStatus (actionItemId : Nat) (newStatus : List Char)
    (r : ActionItemRow) : ActionItemRow :=
  if r.id == actionItemId then { r with status := newStatus } else r

/-- The update mode of `track_follow_up_status` (see `updStatus`). -/
def trackFollowUpStatusUpdate (actionItemId : Nat) (newStatus : List Char)
    (db : Database) : Database × Option String :=
  if newStatus ∉ statusEnum then
    (db, some "Invalid status. Must be one of: open, completed, blocked")
  else
    let db2 := { db with
      actionItems := db.actionItems.map (updStatus actionItemId newStatus) }
    if db.actionItems.any (fun r => r.id == actionItemId) then (db2, none)
    else (db2, some "Action item not found")

/-! ## The program's writes to `action_items`

Every call site that writes the `action_items` table:
`create_follow_up` stores `{description, assignee, due_date, status:'open'}`;
the `create_meeting_notes` loop stores `{description, assignee}`;
the `extract_action_items` loop stores `{description, assignee, message_ts}`
(`message_ts` is not a column of the insert); `track_follow_up_status` issues
the validated `UPDATE`.  No other code writes the table. -/
inductive AppOp where
  | createFollowUp (channelId : Nat) (description : List Char)
      (assignee : Option (List Char)) (dueDate : Option (List Char))
  | storeNoteItem (channelId : Nat) (description : List Char)
      (assignee : Option (List Char))
  | storeExtractedItem (channelId : Nat) (description : List Char)
      (assignee : Option (List Char))
  | updateStatus (actionItemId : Nat) (newStatus : List Char)

/-- One program operation applied to the store (a throwing
`track_follow_up_status` leaves the state unchanged only when validation
fails before the `UPDATE`; an unknown id updates no row). -/
def applyOp (db : Database) : AppOp → Database
  | .createFollowUp ch d a due =>
      (storeActionItemDb ⟨d, a, due, some "open".toList⟩ ch none db).2
  | .storeNoteItem ch d a =>
      (storeActionItemDb ⟨d, a, none, none⟩ ch none db).2
  | .storeExtractedItem ch d a =>
      (storeActionItemDb ⟨d, a, none, none⟩ ch none db).2
  | .updateStatus id st => (trackFollowUpStatusUpdate id st db).1

/-- Database state after a sequence of the program's action-item writes. -/
def runOps (ops : List AppOp) : Database := ops.foldl applyOp initialDb

/-! ## The `/slack/events` endpoint (`events/server.ts`)

```
app.post('/slack/events', async (req, res) => {
  const body = req.body;
  if (body.type === 'url_verification') return res.send(body.challenge);
  if (body.type === 'event_callback') {
    const event = body.event;
    try {
      if (event.type === 'channel_created') { ... storeChannel ... }
      if (event.type === 'message' && event.channel_type === 'channel') {
        let channelRecord = await contextRepository.getChannelBySlackId(...);
        if (!channelRecord) { ... conversations.info ... storeChannel ... }
        await contextRepository.storeMessage(event, channelRecord.id);
      }
    } catch (error) { console.error('Error processing Slack event:', error); }
  }
  // Always respond 200 to avoid retries
  res.sendStatus(200);
});
```

The repository and the Slack client are external effects here, modelled as
fallible functions supplied in `EventsDeps`. -/

/-- Result of `slackClient.client.conversations.info` as used by the
endpoint (`info.channel`). -/
structure SlackChannelInfo where
  id : List Char
  name : List Char
  is_private : Option Bool
deriving DecidableEq

/-- Effectful collaborators of the events endpoint; each call may throw. -/
structure EventsDeps where
  getChannelBySlackId : List Char → Except (List Char) (Option ChannelRow)
  conversationsInfo : List Char → Except (List Char) SlackChannelInfo
  storeChannel : ChannelIn → Except (List Char) ChannelRow
  storeMessage : SlackMsg → Nat → Except (List Char) Nat

/-- Inner event of an `event_callback` body, as discriminated by the
endpoint's `event.type` / `event.channel_type` tests. -/
inductive SlackInnerEvent where
  | channelCreated (id : List Char) (name : List Char) (is_private : Option Bool)
  | message (channelType : List Char) (channel : List Char) (msg : SlackMsg)
  | otherEvent

/-- Request body of the endpoint, as discriminated by `body.type`. -/
inductive SlackEventBody where
  | urlVerification (challenge : List Char)
  | eventCallback (ev : SlackInnerEvent)
  | otherType

/-- HTTP response sent by the endpoint. -/
structure HttpResponse where
  status : Nat
  body : List Char
deriving DecidableEq

/-- The `try` block of the endpoint: persist a `channel_created` event, or a
`message` event with `channel_type === 'channel'` (looking up the internal
channel id first and creating the channel row from `conversations.info` when
it is missing); any other event is ignored. -/
def processSlackEvent (d : EventsDeps) : SlackInnerEvent → Except (List Char) Unit
  | .channelCreated id name isPriv => do
      let _ ← d.storeChannel ⟨id, name, some (isPriv.getD false)⟩
      pure ()
  | .message chType ch msg =>
      if chType = "channel".toList then do
        let found ← d.getChannelBySlackId ch
        let chRow ← match found with
          | some r => pure r
          | none => do
              let info ← d.conversationsInfo ch
              d.storeChannel ⟨info.id, info.name, info.is_private⟩
        let _ ← d.storeMessage msg chRow.id
        pure ()
      else pure ()
  | .otherEvent => pure ()

/-- The endpoint handler: echo `url_verification` challenges; for
`event_callback` run the `try` block, catching (and merely logging) any
error; in every case `res.sendStatus(200)` ends the request. -/
def slackEventsHandler (d : EventsDeps) : SlackEventBody → HttpResponse
  | .urlVerification challenge => ⟨200, challenge⟩
  | .eventCallback ev =>
      match processSlackEvent d ev with
      | .ok _ => ⟨200, "OK".toList⟩
      | .error _ => ⟨200, "OK".toList⟩
  | .otherType => ⟨200, "OK".toList⟩

/-! ## The MCP tool error wrapper (`mcp/tools/errors.ts`)

```
export function toolWrapper(name, fn) {
  return async (...args) => {
    try { return await fn(...args); }
    catch (error) {
      console.error(`Error in <name> tool:`, error);
      if (error instanceof Error) throw new Error(`Failed to <name>: ` + error.message);
      throw new Error(`Failed to <name>: ` + String(error));
    }
  };
}
```

The single attempt of the underlying handler is modelled by its outcome
`r : Except (List Char) α`; the wrapper never invokes the handler again. -/
def toolWrapperE {α : Type} (name : List Char) (r : Except (List Char) α) :
    Except (List Char) α :=
  match r with
  | .ok v => .ok v
  | .error e => .error ("Failed to ".toList ++ name ++ ": ".toList ++ e)

/-! ## SQL statements issued by the repository (`db/repository.ts`)

Each method is mapped to the pair (statement text, parameter vector) it
passes to `client.query`.  Statement texts are written with single spaces in
place of the source's insignificant whitespace. -/

/-- A value passed through a `$n` placeholder. -/
inductive SqlValue where
  | text (s : List Char)
  | optText (s : Option (List Char))
  | int (n : Int)
  | bool (b : Option Bool)
  | tstamp (q : Option Dec10)
  | optInt (n : Option Nat)
  | textArr (l : List (List Char))
  | jsonb (s : List Char)
deriving DecidableEq

/-- Statement of `storeChannel`. -/
def storeChannelStmt (c : ChannelIn) : String × List SqlValue :=
  ("INSERT INTO channels (slack_id, name, is_private) VALUES ($1, $2, $3) ON CONFLICT (slack_id) DO UPDATE SET name = $2, is_private = $3 RETURNING id",
   [.text c.id, .text c.name, .bool c.is_private])

/-- Statement of `storeMessage`. -/
def storeMessageStmt (m : SlackMsg) (channelId : Nat) : String × List SqlValue :=
  ("INSERT INTO messages (slack_id, channel_id, user_id, text, timestamp, thread_ts, has_attachments) VALUES ($1, $2, $3, $4, $5, $6, $7) ON CONFLICT (slack_id) DO UPDATE SET text = $4 RETURNING id",
   [.optText m.ts, .int channelId, .optText m.user, .optText m.text,
    .tstamp ((parseFloatDec (m.ts.getD [])).map (fun d => ⟨d.num * 1000, d.exp⟩)),
    .optText m.thread_ts, .bool (some m.attachments.isSome)])

/-- Serialization of the extracted items for the `JSONB` column
(`JSON.stringify`); kept abstract as the structured value it denotes. -/
def jsonOfItems (l : List NoteItem) : List Char :=
  (toString l.length).toList

/-- Statement of `storeMeetingNotes`. -/
def storeMeetingNotesStmt (n : NotesIn) (channelId : Nat) : String × List SqlValue :=
  ("INSERT INTO meeting_notes (title, summary, channel_id, start_ts, end_ts, participants, action_items, decisions) VALUES ($1, $2, $3, $4, $5, $6, $7, $8) RETURNING id",
   [.text n.title, .text n.summary, .int channelId, .text n.start_ts,
    .text n.end_ts, .textArr n.participants, .jsonb (jsonOfItems n.action_items),
    .jsonb (toString n.decisions.length).toList])

/-- Statement of `storeActionItem`. -/
def storeActionItemStmt (it : ActionItemIn) (channelId : Nat)
    (messageId : Option Nat) : String × List SqlValue :=
  ("INSERT INTO action_items (description, assignee, due_date, status, channel_id, message_id) VALUES ($1, $2, $3, $4, $5, $6) RETURNING id",
   [.text it.description, .optText it.assignee, .optText it.due_date,
    .text (statusOrOpen it.status), .int channelId, .optInt messageId])

/-- Statement of `getRecentMessages`. -/
def getRecentMessagesStmt (channelId : Nat) (limit : Nat) : String × List SqlValue :=
  ("SELECT * FROM messages WHERE channel_id = $1 ORDER BY timestamp DESC LIMIT $2",
   [.int channelId, .int limit])

/-- Statement of `getActionItems`: the text is extended by a `WHERE` clause
exactly when the optional `status` filter is truthy — the source tests
`if (status)`, so an absent status *and* a present-but-empty status string
both issue the unfiltered base statement. -/
def getActionItemsStmt (status : Option (List Char)) : String × List SqlValue :=
  let base := "SELECT a.*, c.name as channel_name FROM action_items a JOIN channels c ON a.channel_id = c.id"
  if jsFalsy status then (base, [])
  else (base ++ " WHERE a.status = $1", [.text (status.getD [])])

/-- The fixed set of statement texts the repository can issue. -/
def repoStatementTexts : List String :=
  [(storeChannelStmt ⟨[], [], none⟩).1,
   (storeMessageStmt ⟨none, none, none, none, none⟩ 0).1,
   (storeMeetingNotesStmt ⟨[], [], [], [], [], [], []⟩ 0).1,
   (storeActionItemStmt ⟨[], none, none, none⟩ 0 none).1,
   (getRecentMessagesStmt 0 0).1,
   (getActionItemsStmt none).1,
   (getActionItemsStmt (some "open".toList)).1]

/-! ## The action-item detection condition (`mcp/tools/notes.ts`)

```
const text = (msg.text ?? '').toLowerCase();
if (text.includes('action item') || text.includes('todo') ||
    (msg.text ?? '').match(/(?:@\w+|<@[^>]+>).*\b(?:will|should|needs? to|must)\b/i))
```

The regex is embedded as an executable left-to-right matcher with JavaScript
semantics: `.` matches every character except a line terminator, `\b` is an
ASCII word boundary, the `i` flag folds ASCII case, and `match` is truthy iff
a match exists anywhere in the string. -/

/-- The alternatives of `(?:will|should|needs? to|must)`, lowercased. -/
def obligWords : List (List Char) :=
  ["will".toList, "should".toList, "needs to".toList, "need to".toList,
   "must".toList]

/-- Case-insensitive literal match: consume the (lowercase ASCII) pattern from
the front of the text, returning the remainder. -/
def ciPrefixRest : List Char → List Char → Option (List Char)
  | [], l => some l
  | _ :: _, [] => none
  | p :: ps, c :: cs => if lowerA c = p then ciPrefixRest ps cs else none

/-- Word boundary `\b` at the seam between a word character and what follows
(end of string is a boundary). -/
def boundaryAfter : List Char → Bool
  | [] => true
  | c :: _ => !wordChar c

/-- Test whether one of the obligation alternatives matches at the current
position, including the trailing `\b`. -/
def obligHere (l : List Char) : Bool :=
  obligWords.any (fun w =>
    match ciPrefixRest w l with
    | some rest => boundaryAfter rest
    | none => false)

/-- Matcher for `.*\b(?:will|should|needs? to|must)\b` given the character
just before the current position (`prev` determines the leading `\b`): either
an alternative starts right here after a non-word character, or `.*` consumes
one more non-line-terminator character. -/
def scanOblig (prev : Char) : List Char → Bool
  | [] => false
  | c :: rest =>
      (!wordChar prev && obligHere (c :: rest)) ||
      (!isLineTerm c && scanOblig c rest)

/-- After `<@` and a first non-`>` character, `[^>]+>` must close at the first
`>`; then the obligation part is scanned with `>` as the previous character. -/
def scanToGt : List Char → Bool
  | [] => false
  | c :: rest => if c = '>' then scanOblig '>' rest else scanToGt rest

/-- Test whether the whole regex matches starting exactly at the current
position: `@\w+` (one word character suffices — further word characters are
absorbed by `.*`) or `<@[^>]+>`, followed by the obligation part. -/
def mentionCheck (l : List Char) : Bool :=
  match l with
  | c1 :: c2 :: rest =>
      if c1 = '@' then wordChar c2 && scanOblig c2 rest
      else if c1 = '<' ∧ c2 = '@' then
        match rest with
        | c3 :: rest2 => decide (c3 ≠ '>') && scanToGt (c3 :: rest2)
        | [] => false
      else false
  | _ => false

/-- Truthiness of `s.match(/(?:@\w+|<@[^>]+>).*\b(?:will|should|needs? to|must)\b/i)`:
try every start position from the left. -/
def scanMention : List Char → Bool
  | [] => false
  | c :: t => mentionCheck (c :: t) || scanMention t

/-- Truthiness of `s.toLowerCase().includes(pat)` for a lowercase ASCII
pattern `pat`: scan for a case-folded occurrence. -/
def hasSubstrCI (pat : List Char) : List Char → Bool
  | [] => pat.isEmpty
  | c :: t => (ciPrefixRest pat (c :: t)).isSome || hasSubstrCI pat t

/-- The full action-item detection condition of `create_meeting_notes` and
`extract_action_items`. -/
def actionCond (text : List Char) : Bool :=
  hasSubstrCI "action item".toList text || hasSubstrCI "todo".toList text ||
  scanMention text

/-! ## Claim-level characterization of the detection condition

These predicates state the spec's reading of the two regex alternatives as
positional decompositions; they are compared with the executable matcher. -/

/-- Mention in the sense of the regex: `@` followed by a nonempty run of word
characters, or `<@`, a nonempty `>`-free block, and `>`. -/
def MentionShape (m : List Char) : Prop :=
  (∃ ws, m = '@' :: ws ∧ ws ≠ [] ∧ ∀ c ∈ ws, wordChar c = true) ∨
  (∃ inner, m = '<' :: '@' :: (inner ++ ['>']) ∧ inner ≠ [] ∧ '>' ∉ inner)

/-- Obligation keyword up to ASCII case. -/
def ObligWord (w : List Char) : Prop := w.map lowerA ∈ obligWords

/-- Decomposition semantics of the regex: some mention, then filler, then an
obligation keyword delimited by word boundaries.  When `sameLine` is set the
filler may not contain a line terminator (the semantics of `.`); the claim's
looser reading drops that restriction. -/
def MentionObligPattern (sameLine : Bool) (s : List Char) : Prop :=
  ∃ pre m mid w post, s = pre ++ m ++ mid ++ w ++ post ∧
    MentionShape m ∧
    (sameLine = true → ∀ c ∈ mid, isLineTerm c = false) ∧
    wordChar (mid.getLastD (m.getLastD ' ')) = false ∧
    ObligWord w ∧
    boundaryAfter post = true

/-- Tail part of a match: filler (no line terminator), then an obligation
keyword with a word boundary on each side; `prev` is the character preceding
the tail (the mention's last character when the filler is empty). -/
def ObligTail (prev : Char) (l : List Char) : Prop :=
  ∃ mid w post, l = mid ++ w ++ post ∧
    (∀ c ∈ mid, isLineTerm c = false) ∧
    wordChar (mid.getLastD prev) = false ∧
    ObligWord w ∧ boundaryAfter post = true

/-- A full match of the regex starting at the head of `l`. -/
def MentionAtHead (l : List Char) : Prop :=
  ∃ m rest, l = m ++ rest ∧ MentionShape m ∧ ObligTail (m.getLastD ' ') rest

/-- Containment of a (lowercase ASCII) keyword in the lowercased text. -/
def KwSubstr (kw : List Char) (s : List Char) : Prop :=
  ∃ pre post, s.map lowerA = pre ++ kw ++ post

/-- The action-item condition exactly as claim C3 words it ("followed later
in the text", with no restriction between mention and keyword). -/
def C3ClaimPred (s : List Char) : Prop :=
  KwSubstr "action item".toList s ∨ KwSubstr "todo".toList s ∨
  MentionObligPattern false s

/-- The action-item condition as amended: the filler between the mention and
the obligation keyword cannot contain a line terminator, because `.` in the
source regex does not match one. -/
def C3AmendedPred (s : List Char) : Prop :=
  KwSubstr "action item".toList s ∨ KwSubstr "todo".toList s ∨
  MentionObligPattern true s

/-! ## Assignee detection in `extract_action_items`

```
const mentionMatch = (msg.text ?? '').match(/<@([A-Z0-9]+)>/);
const assigneeId = mentionMatch ? mentionMatch[1] : msg.user;
```
-/

/-- Capture of `/<@([A-Z0-9]+)>/` anchored at the current position: after
`<@`, the greedy run of `[A-Z0-9]` must be nonempty and be followed
immediately by `>`. -/
def mentionCapHere (l : List Char) : Option (List Char) :=
  match l with
  | c1 :: c2 :: rest =>
      if c1 = '<' ∧ c2 = '@' then
        match rest.dropWhile isCapAlnum with
        | c3 :: _ =>
            if c3 = '>' ∧ ¬(rest.takeWhile isCapAlnum).isEmpty then
              some (rest.takeWhile isCapAlnum)
            else none
        | [] => none
      else none
  | _ => none

/-- First (leftmost) capture of `/<@([A-Z0-9]+)>/` in the string, as returned
by `String.prototype.match` without the `g` flag. -/
def firstMention : List Char → Option (List Char)
  | [] => none
  | c :: t =>
      match mentionCapHere (c :: t) with
      | some r => some r
      | none => firstMention t

/-- The assignee chosen by `extract_action_items`: the first `<@...>` capture
when one exists, else the message author. -/
def assigneeOf (text : List Char) (author : Option (List Char)) :
    Option (List Char) :=
  match firstMention text with
  | some r => some r
  | none => author

/-- Claim-level statement that the capture `r` occurs at offset `i`. -/
def CapMentionAt (s : List Char) (i : Nat) (r : List Char) : Prop :=
  ∃ t, s.drop i = '<' :: '@' :: (r ++ '>' :: t) ∧ r ≠ [] ∧
    ∀ c ∈ r, isCapAlnum c = true

/-! ## The two extraction tools (`mcp/tools/notes.ts`)

Both tools fetch up to 1000 messages, filter them to the requested timeframe
by `parseFloat` comparison (a missing or empty `ts` counts as `0`, `NaN`
comparisons are false), and keep exactly the messages satisfying
`actionCond`. -/

/-- The `msg.text ?? ''` default. -/
def textD (m : SlackMsg) : List Char := m.text.getD []

/-- The numeric timestamp `msg.ts ? parseFloat(msg.ts) : 0`. -/
def tsNumJS (m : SlackMsg) : Option Dec10 :=
  match m.ts with
  | none => some ⟨0, 0⟩
  | some l => if l.isEmpty then some ⟨0, 0⟩ else parseFloatDec l

/-- JavaScript `>=` on possibly-NaN numbers. -/
def qGe (a b : Option Dec10) : Bool :=
  match a, b with
  | some x, some y => decLe y x
  | _, _ => false

/-- JavaScript `<=` on possibly-NaN numbers. -/
def qLe (a b : Option Dec10) : Bool :=
  match a, b with
  | some x, some y => decLe x y
  | _, _ => false

/-- The timeframe filter
`ts >= parseFloat(start_ts) && ts <= parseFloat(end_ts)`. -/
def inTimeframe (startTs endTs : List Char) (m : SlackMsg) : Bool :=
  qGe (tsNumJS m) (parseFloatDec startTs) && qLe (tsNumJS m) (parseFloatDec endTs)

/-- Action items produced by the `create_meeting_notes` analysis loop:
`{ description: msg.text ?? '', assignee: msg.user }` for every message in
the timeframe satisfying the condition. -/
def notesActionItems (startTs endTs : List Char) (msgs : List SlackMsg) :
    List NoteItem :=
  ((msgs.filter (inTimeframe startTs endTs)).filter
      (fun m => actionCond (textD m))).map
    (fun m => ⟨textD m, m.user, none⟩)

/-- Action items produced by the `extract_action_items` loop:
`{ description, assignee: first <@...> capture or author, message_ts }`. -/
def extractedActionItems (startTs endTs : List Char) (msgs : List SlackMsg) :
    List NoteItem :=
  ((msgs.filter (inTimeframe startTs endTs)).filter
      (fun m => actionCond (textD m))).map
    (fun m => ⟨textD m, assigneeOf (textD m) m.user, m.ts⟩)

/-! ## Auxiliary concrete objects used to instantiate theorems -/

/-- The status invariant of the `action_items` table. -/
def StatusInv (db : Database) : Prop :=
  ∀ r ∈ db.actionItems, r.status ∈ statusEnum

/-- A stand-in HMAC-SHA256-hex function producing a fixed 64-character
digest, used to instantiate the middleware theorems. -/
def hmacStub : List Char → List Char → List Char :=
  fun _ _ => List.replicate 64 'a'

/-- A middleware request with valid headers but a one-byte signature. -/
def shortSigReq : SlackRequest :=
  ⟨some "9999999999".toList, some "x".toList, []⟩

/-- Endpoint collaborators whose database writes fail. -/
def failingDeps : EventsDeps :=
  ⟨fun _ => .ok (some ⟨1, "C1".toList, "general".toList, some false⟩),
   fun _ => .error "no network".toList,
   fun _ => .error "db down".toList,
   fun _ _ => .error "db down".toList⟩

/-- A channel message event whose persistence will be attempted. -/
def cexMsgEvent : SlackInnerEvent :=
  .message "channel".toList "C1".toList
    ⟨some "1.0".toList, some "U1".toList, some "hello".toList, none, none⟩

/-- A message whose text has a mention and an obligation keyword separated by
a newline: the claim's reading of the extraction condition accepts it, the
source regex does not. -/
def c3CexMsg : SlackMsg :=
  ⟨some "5".toList, some "U9".toList, some "<@U1>\nwill do.".toList,
   none, none⟩

/-- A message containing an explicit `todo` keyword. -/
def c3WitMsg : SlackMsg :=
  ⟨some "5".toList, some "U9".toList, some "todo x".toList, none, none⟩

/-- A message with two user mentions, extracted as an action item. -/
def c7WitMsg : SlackMsg :=
  ⟨some "5".toList, some "U9".toList,
   some "todo <@U1> and <@U2>".toList, none, none⟩

/-! # Theorems -/

/-- Claim C1 (amended): a request with a missing (or empty) timestamp or
signature header is answered 400 and never reaches the endpoint; a request
whose parsed timestamp is more than five minutes old is answered 400; a
request whose provided signature differs from the computed
`v0=<hmac-sha256-hex>` is answered 401 when the two strings have equal byte
length — when the lengths differ, `crypto.timingSafeEqual` throws instead —
and exactly the requests passing all three checks reach the events
endpoint. -/
theorem C1_middleware_checks (hmacHex : List Char → List Char → List Char)
    (secret : List Char) (nowSec : Int) (req : SlackRequest) :
    (missingHdrs req = true →
      verifyMiddleware hmacHex secret nowSec req =
        .badRequest "Missing Slack signature headers") ∧
    (∀ n : Int, missingHdrs req = false →
      parseIntJS (req.timestampHdr.getD []) = some n → n < nowSec - 60 * 5 →
      verifyMiddleware hmacHex secret nowSec req =
        .badRequest "Ignore stale request") ∧
    (missingHdrs req = false → staleFlag nowSec req = false →
      computedSigOf hmacHex secret req ≠ req.signatureHdr.getD [] →
      (((req.signatureHdr.getD []).length =
          (computedSigOf hmacHex secret req).length →
        verifyMiddleware hmacHex secret nowSec req = .unauthorized) ∧
       ((req.signatureHdr.getD []).length ≠
          (computedSigOf hmacHex secret req).length →
        verifyMiddleware hmacHex secret nowSec req = .thrown))) ∧
    (verifyMiddleware hmacHex secret nowSec req = .next ↔
      missingHdrs req = false ∧ staleFlag nowSec req = false ∧
      computedSigOf hmacHex secret req = req.signatureHdr.getD []) := by
  refine ⟨?_, ?_, ?_, ?_⟩
  · intro h; simp [verifyMiddleware, h]
  · intro n hm hp hlt
    have hst : staleFlag nowSec req = true := by
      simp only [staleFlag, hp, decide_eq_true_eq]
      exact hlt
    simp [verifyMiddleware, hm, hst]
  · intro hm hs hne
    constructor
    · intro hlen
      simp [verifyMiddleware, hm, hs, hlen.symm, hne]
    · intro hlen
      have : (computedSigOf hmacHex secret req).length ≠
          (req.signatureHdr.getD []).length := fun h => hlen h.symm
      simp [verifyMiddleware, hm, hs, this]
  · constructor
    · intro h
      by_cases hm : missingHdrs req
      · simp [verifyMiddleware, hm] at h
      · by_cases hs : staleFlag nowSec req
        · simp [verifyMiddleware, hm, hs] at h
        · by_cases hl : (computedSigOf hmacHex secret req).length =
              (req.signatureHdr.getD []).length
          · by_cases he : computedSigOf hmacHex secret req =
                req.signatureHdr.getD []
            · exact ⟨by simp [hm], by simp [hs], he⟩
            · simp [verifyMiddleware, hm, hs, hl, he] at h
          · simp [verifyMiddleware, hm, hs, hl] at h
    · rintro ⟨hm, hs, he⟩
      simp [verifyMiddleware, hm, hs, he]

/-- Witness for C1 at a concrete request with no timestamp header. -/
theorem C1_middleware_checks_witness :
    verifyMiddleware hmacStub [] 0 ⟨none, some "x".toList, []⟩ =
      .badRequest "Missing Slack signature headers" :=
  (C1_middleware_checks hmacStub [] 0 ⟨none, some "x".toList, []⟩).1 (by decide)

/-- Counterexample to C1 as stated: a request whose provided signature
differs from the computed one but has a different length makes
`crypto.timingSafeEqual` throw, so the middleware does not answer 401. -/
theorem C1_counterexample :
    computedSigOf hmacStub [] shortSigReq ≠ shortSigReq.signatureHdr.getD [] ∧
    verifyMiddleware hmacStub [] 0 shortSigReq ≠ MwOutcome.unauthorized ∧
    verifyMiddleware hmacStub [] 0 shortSigReq = MwOutcome.thrown := by
  refine ⟨by decide, by decide, by decide⟩

/-- Claim C10: the middleware answers 401 only when the provided
`x-slack-signature` has exactly the 67-byte length of `v0=` plus 64 hex
digits; at any other length reaching the comparison ends in an exception. -/
theorem C10_timing_safe_equal_length (hmacHex : List Char → List Char → List Char)
    (secret : List Char) (nowSec : Int) (req : SlackRequest)
    (hlen : (hmacHex secret (sigBaseOf req)).length = 64) :
    (verifyMiddleware hmacHex secret nowSec req = .unauthorized →
      (req.signatureHdr.getD []).length = 67) ∧
    (missingHdrs req = false → staleFlag nowSec req = false →
      (req.signatureHdr.getD []).length ≠ 67 →
      verifyMiddleware hmacHex secret nowSec req = .thrown) := by
  have hmy : (computedSigOf hmacHex secret req).length = 67 := by
    simp [computedSigOf, hlen]
  constructor
  · intro h
    by_cases hm : missingHdrs req
    · simp [verifyMiddleware, hm] at h
    · by_cases hs : staleFlag nowSec req
      · simp [verifyMiddleware, hm, hs] at h
      · by_cases hl : (computedSigOf hmacHex secret req).length =
            (req.signatureHdr.getD []).length
        · rw [← hl, hmy]
        · simp [verifyMiddleware, hm, hs, hl] at h
  · intro hm hs h67
    have : (computedSigOf hmacHex secret req).length ≠
        (req.signatureHdr.getD []).length := by
      rw [hmy]; exact fun h => h67 h.symm
    simp [verifyMiddleware, hm, hs, this]

/-- Witness for C10 at the concrete one-byte-signature request. -/
theorem C10_timing_safe_equal_length_witness :
    verifyMiddleware hmacStub [] 0 shortSigReq = MwOutcome.thrown :=
  (C10_timing_safe_equal_length hmacStub [] 0 shortSigReq (by decide)).2
    (by decide) (by decide) (by decide)

/-- Claim C2 (amended): the events endpoint answers every request it handles
with status 200 — including requests whose persistence failed, whose errors
are caught and only logged ("Always respond 200 to avoid retries"), so the
sender never redelivers a failed event. -/
theorem C2_always_ack_200 :
    ∀ (d : EventsDeps) (body : SlackEventBody),
      (slackEventsHandler d body).status = 200 := by
  intro d body
  cases body with
  | urlVerification ch => rfl
  | eventCallback ev =>
      cases h : processSlackEvent d ev with
      | ok v => simp [slackEventsHandler, h]
      | error e => simp [slackEventsHandler, h]
  | otherType => rfl

/-- Counterexample to C2 as stated: with a failing `storeMessage`, the
persistence of a channel message event fails, yet the request is acknowledged
with status 200. -/
theorem C2_counterexample :
    processSlackEvent failingDeps cexMsgEvent = .error "db down".toList ∧
    (slackEventsHandler failingDeps (.eventCallback cexMsgEvent)).status = 200 :=
  ⟨rfl, rfl⟩

/-- Claim C6 (amended): a tool handler wrapped in `toolWrapper` passes
successes through and rethrows a failure as `Failed to <tool name>: <message>`
without retrying; the webhook event-processing path, however, only logs the
error — the request is still answered with the normal 200 response, and
nothing is rethrown. -/
theorem C6_error_handling :
    (∀ (α : Type) (name : List Char) (v : α),
      toolWrapperE name (.ok v) = .ok v) ∧
    (∀ (α : Type) (name e : List Char),
      toolWrapperE (α := α) name (.error e) =
        .error ("Failed to ".toList ++ name ++ ": ".toList ++ e)) ∧
    (∀ (d : EventsDeps) (ev : SlackInnerEvent) (err : List Char),
      processSlackEvent d ev = .error err →
      slackEventsHandler d (.eventCallback ev) = ⟨200, "OK".toList⟩) := by
  refine ⟨fun α name v => rfl, fun α name e => rfl, ?_⟩
  intro d ev err h
  simp [slackEventsHandler, h]

/-- Witness for C6 at a concrete failing event. -/
theorem C6_error_handling_witness :
    slackEventsHandler failingDeps (.eventCallback cexMsgEvent) =
      ⟨200, "OK".toList⟩ :=
  C6_error_handling.2.2 failingDeps cexMsgEvent "db down".toList rfl

/-- Counterexample to C6 as stated: in the webhook path an underlying error
is not rethrown — the response is identical to that of an event that needed
no work at all. -/
theorem C6_counterexample :
    processSlackEvent failingDeps cexMsgEvent = .error "db down".toList ∧
    slackEventsHandler failingDeps (.eventCallback cexMsgEvent) =
      slackEventsHandler failingDeps (.eventCallback .otherEvent) :=
  ⟨rfl, rfl⟩

/-! ## Upsert lemmas (keyed rows) -/

theorem find?_map_key {α : Type} (f : α → α) (p : α → Bool)
    (hp : ∀ x, p (f x) = p x) (l : List α) :
    (l.map f).find? p = (l.find? p).map f := by
  induction l with
  | nil => rfl
  | cons x t ih =>
      by_cases h : p x = true
      · rw [List.map_cons, List.find?_cons_of_pos _ (by rw [hp]; exact h),
          List.find?_cons_of_pos _ h, Option.map_some']
      · rw [List.map_cons,
          List.find?_cons_of_neg _ (by rw [hp]; exact h),
          List.find?_cons_of_neg _ h, ih]

theorem countP_beq_eq_one {α : Type} [BEq α] [LawfulBEq α] (l : List α)
    (a : α) (hnd : l.Nodup) (ha : a ∈ l) :
    List.countP (fun s => s == a) l = 1 := by
  induction l with
  | nil => simp at ha
  | cons x t ih =>
      rw [List.countP_cons]
      rcases List.mem_cons.mp ha with rfl | hat
      · have hxt : a ∉ t := (List.nodup_cons.mp hnd).1
        have hz : List.countP (fun s => s == a) t = 0 := by
          rw [List.countP_eq_zero]
          intro b hb hba
          exact hxt ((eq_of_beq hba) ▸ hb)
        simp [hz]
      · have hx : (x == a) = false := by
          have : x ≠ a := by
            rintro rfl; exact (List.nodup_cons.mp hnd).1 hat
          simpa using this
        simp [hx, ih (List.nodup_cons.mp hnd).2 hat]

theorem length_filter_key_one {α : Type} (key : α → List Char) (l : List α)
    (k : List Char) (hnd : (l.map key).Nodup) (r : α) (hr : r ∈ l)
    (hk : key r = k) :
    (l.filter (fun x => key x == k)).length = 1 := by
  have h1 : (l.filter (fun x => key x == k)).length =
      List.countP (fun x => key x == k) l :=
    (List.countP_eq_length_filter _ _).symm
  have h2 : List.countP (fun x => key x == k) l =
      List.countP (fun s => s == k) (l.map key) := by
    rw [List.countP_map]; rfl
  have hkmem : k ∈ l.map key := by
    subst hk; exact List.mem_map_of_mem key hr
  rw [h1, h2]
  exact countP_beq_eq_one _ _ hnd hkmem

theorem nodup_map_key_map {α : Type} (f : α → α) (key : α → List Char)
    (hkey : ∀ x, key (f x) = key x) (l : List α)
    (h : (l.map key).Nodup) : ((l.map f).map key).Nodup := by
  have heq : (l.map f).map key = l.map key := by
    rw [List.map_map]
    exact List.map_congr_left (fun x _ => hkey x)
  rw [heq]; exact h

theorem nodup_map_key_append {α : Type} (key : α → List Char) (l : List α)
    (row : α) (h : (l.map key).Nodup) (hnew : ∀ x ∈ l, key x ≠ key row) :
    ((l ++ [row]).map key).Nodup := by
  rw [List.map_append]
  rw [List.nodup_append]
  refine ⟨h, List.nodup_singleton _, ?_⟩
  intro a ha hb
  obtain ⟨x, hx, hxa⟩ := List.mem_map.mp ha
  have : a = key row := by simpa using hb
  exact hnew x hx (hxa.trans this)

theorem updChannel_key (c : ChannelIn) (x : ChannelRow) :
    (updChannel c x).slack_id = x.slack_id := by
  unfold updChannel; split <;> rfl

theorem updMessageText_key (m : SlackMsg) (x : MessageRow) :
    (updMessageText m x).slack_id = x.slack_id := by
  unfold updMessageText; split <;> rfl

/-- Claim C4: `storeChannel` and `storeMessage` are idempotent upserts keyed
by external id.  Starting from a table with unique keys (the `UNIQUE
(slack_id)` constraint), two consecutive calls with the same external id
return the same internal id; afterwards exactly one row carries that key, the
second call added no row, and the surviving row holds the second call's
values (for messages, its updated `text`). -/
theorem C4_upsert_idempotent :
    (∀ (db : Database) (c1 c2 : ChannelIn), c2.id = c1.id →
      (db.channels.map (fun r => r.slack_id)).Nodup →
      (storeChannelDb c2 (storeChannelDb c1 db).2).1 = (storeChannelDb c1 db).1 ∧
      ((storeChannelDb c2 (storeChannelDb c1 db).2).2.channels.filter
          (fun r => r.slack_id == c1.id)).length = 1 ∧
      (storeChannelDb c2 (storeChannelDb c1 db).2).2.channels.length =
        (storeChannelDb c1 db).2.channels.length ∧
      (storeChannelDb c2 (storeChannelDb c1 db).2).2.channels.find?
          (fun r => r.slack_id == c1.id) =
        some ⟨(storeChannelDb c1 db).1, c1.id, c2.name, c2.is_private⟩) ∧
    (∀ (db : Database) (m1 m2 : SlackMsg) (cid1 cid2 : Nat), m2.ts = m1.ts →
      (db.messages.map (fun r => r.slack_id)).Nodup →
      (storeMessageDb m2 cid2 (storeMessageDb m1 cid1 db).2).1 =
        (storeMessageDb m1 cid1 db).1 ∧
      ((storeMessageDb m2 cid2 (storeMessageDb m1 cid1 db).2).2.messages.filter
          (fun r => r.slack_id == m1.ts.getD [])).length = 1 ∧
      (storeMessageDb m2 cid2 (storeMessageDb m1 cid1 db).2).2.messages.length =
        (storeMessageDb m1 cid1 db).2.messages.length ∧
      ∃ r, (storeMessageDb m2 cid2 (storeMessageDb m1 cid1 db).2).2.messages.find?
          (fun x => x.slack_id == m1.ts.getD []) = some r ∧
        r.id = (storeMessageDb m1 cid1 db).1 ∧ r.text = m2.text) := by
  constructor
  · intro db c1 c2 hid hnd
    obtain ⟨ci2, cn2, cp2⟩ := c2
    simp only [ChannelIn.mk.injEq] at hid ⊢
    subst hid
    have hpkey : ∀ x : ChannelRow,
        ((updChannel ⟨c1.id, cn2, cp2⟩ x).slack_id == c1.id) =
        (x.slack_id == c1.id) := by
      intro x; rw [updChannel_key]
    have hpkey1 : ∀ x : ChannelRow,
        ((updChannel c1 x).slack_id == c1.id) = (x.slack_id == c1.id) := by
      intro x; rw [updChannel_key]
    cases h : db.channels.find? (fun r => r.slack_id == c1.id) with
    | none =>
        have hnew : ∀ x ∈ db.channels, x.slack_id ≠ c1.id := by
          intro x hx
          have := List.find?_eq_none.mp h x hx
          simpa using this
        have hfind2 : (db.channels ++
            [(⟨db.nextChannelId, c1.id, c1.name, c1.is_private⟩ : ChannelRow)]).find?
            (fun r => r.slack_id == c1.id) =
            some ⟨db.nextChannelId, c1.id, c1.name, c1.is_private⟩ := by
          rw [List.find?_append, h]
          simp
        have hnd2 : ((db.channels ++
            [(⟨db.nextChannelId, c1.id, c1.name, c1.is_private⟩ : ChannelRow)]).map
            (fun r => r.slack_id)).Nodup := by
          refine nodup_map_key_append _ _ _ hnd ?_
          intro x hx; exact hnew x hx
        refine ⟨?_, ?_, ?_, ?_⟩
        · simp [storeChannelDb, h, hfind2]
        · simp only [storeChannelDb, h, hfind2]
          refine length_filter_key_one (fun r => r.slack_id) _ c1.id
            (nodup_map_key_map _ _ (updChannel_key _) _ hnd2)
            (updChannel ⟨c1.id, cn2, cp2⟩ ⟨db.nextChannelId, c1.id, c1.name, c1.is_private⟩)
            (List.mem_map_of_mem _ (by simp)) ?_
          simp [updChannel_key]
        · simp [storeChannelDb, h, hfind2]
        · simp only [storeChannelDb, h, hfind2]
          rw [find?_map_key _ _ hpkey, hfind2]
          simp [updChannel]
    | some r0 =>
        have hr0key : r0.slack_id = c1.id := by
          have := List.find?_some h; simpa using this
        have hr0mem : r0 ∈ db.channels := List.mem_of_find?_eq_some h
        have hfind2 : (db.channels.map (updChannel c1)).find?
            (fun r => r.slack_id == c1.id) = some (updChannel c1 r0) := by
          rw [find?_map_key _ _ hpkey1, h, Option.map_some']
        refine ⟨?_, ?_, ?_, ?_⟩
        · simp [storeChannelDb, h, hfind2, updChannel, hr0key]
        · simp only [storeChannelDb, h, hfind2]
          refine length_filter_key_one (fun r => r.slack_id) _ c1.id
            (nodup_map_key_map _ _ (updChannel_key _) _
              (nodup_map_key_map _ _ (updChannel_key _) _ hnd))
            (updChannel ⟨c1.id, cn2, cp2⟩ (updChannel c1 r0))
            (List.mem_map_of_mem _ (List.mem_map_of_mem _ hr0mem)) ?_
          simp [updChannel_key, hr0key]
        · simp [storeChannelDb, h, hfind2]
        · simp only [storeChannelDb, h, hfind2]
          rw [find?_map_key _ _ hpkey, hfind2]
          simp [updChannel, hr0key]
  · intro db m1 m2 cid1 cid2 hts hnd
    obtain ⟨mts2, mu2, mx2, mth2, mat2⟩ := m2
    simp only at hts ⊢
    subst hts
    have hpkey : ∀ x : MessageRow,
        ((updMessageText ⟨m1.ts, mu2, mx2, mth2, mat2⟩ x).slack_id ==
          m1.ts.getD []) = (x.slack_id == m1.ts.getD []) := by
      intro x; rw [updMessageText_key]
    have hpkey1 : ∀ x : MessageRow,
        ((updMessageText m1 x).slack_id == m1.ts.getD []) =
        (x.slack_id == m1.ts.getD []) := by
      intro x; rw [updMessageText_key]
    cases h : db.messages.find? (fun r => r.slack_id == m1.ts.getD []) with
    | none =>
        have hnew : ∀ x ∈ db.messages, x.slack_id ≠ m1.ts.getD [] := by
          intro x hx
          have := List.find?_eq_none.mp h x hx
          simpa using this
        have hfind2 : (db.messages ++
            [(⟨db.nextMessageId, m1.ts.getD [], cid1, m1.user, m1.text,
              (parseFloatDec (m1.ts.getD [])).map (fun d => ⟨d.num * 1000, d.exp⟩),
              m1.thread_ts, m1.attachments.isSome⟩ : MessageRow)]).find?
            (fun r => r.slack_id == m1.ts.getD []) =
            some ⟨db.nextMessageId, m1.ts.getD [], cid1, m1.user, m1.text,
              (parseFloatDec (m1.ts.getD [])).map (fun d => ⟨d.num * 1000, d.exp⟩),
              m1.thread_ts, m1.attachments.isSome⟩ := by
          rw [List.find?_append, h]
          simp
        have hnd2 : ((db.messages ++
            [(⟨db.nextMessageId, m1.ts.getD [], cid1, m1.user, m1.text,
              (parseFloatDec (m1.ts.getD [])).map (fun d => ⟨d.num * 1000, d.exp⟩),
              m1.thread_ts, m1.attachments.isSome⟩ : MessageRow)]).map
            (fun r => r.slack_id)).Nodup := by
          refine nodup_map_key_append _ _ _ hnd ?_
          intro x hx; exact hnew x hx
        refine ⟨?_, ?_, ?_, ?_⟩
        · simp [storeMessageDb, h, hfind2]
        · simp only [storeMessageDb, h, hfind2]
          refine length_filter_key_one (fun r => r.slack_id) _ (m1.ts.getD [])
            (nodup_map_key_map _ _ (updMessageText_key _) _ hnd2)
            (updMessageText ⟨m1.ts, mu2, mx2, mth2, mat2⟩
              ⟨db.nextMessageId, m1.ts.getD [], cid1, m1.user, m1.text,
                (parseFloatDec (m1.ts.getD [])).map (fun d => ⟨d.num * 1000, d.exp⟩),
                m1.thread_ts, m1.attachments.isSome⟩)
            (List.mem_map_of_mem _ (by simp)) ?_
          simp [updMessageText_key]
        · simp [storeMessageDb, h, hfind2]
        · simp only [storeMessageDb, h, hfind2]
          rw [find?_map_key _ _ hpkey, hfind2]
          refine ⟨_, rfl, ?_, ?_⟩ <;> simp [updMessageText]
    | some r0 =>
        have hr0key : r0.slack_id = m1.ts.getD [] := by
          have := List.find?_some h; simpa using this
        have hr0mem : r0 ∈ db.messages := List.mem_of_find?_eq_some h
        have hfind2 : (db.messages.map (updMessageText m1)).find?
            (fun r => r.slack_id == m1.ts.getD []) =
            some (updMessageText m1 r0) := by
          rw [find?_map_key _ _ hpkey1, h, Option.map_some']
        refine ⟨?_, ?_, ?_, ?_⟩
        · simp [storeMessageDb, h, hfind2, updMessageText, hr0key]
        · simp only [storeMessageDb, h, hfind2]
          refine length_filter_key_one (fun r => r.slack_id) _ (m1.ts.getD [])
            (nodup_map_key_map _ _ (updMessageText_key _) _
              (nodup_map_key_map _ _ (updMessageText_key _) _ hnd))
            (updMessageText ⟨m1.ts, mu2, mx2, mth2, mat2⟩ (updMessageText m1 r0))
            (List.mem_map_of_mem _ (List.mem_map_of_mem _ hr0mem)) ?_
          simp [updMessageText_key, hr0key]
        · simp [storeMessageDb, h, hfind2]
        · simp only [storeMessageDb, h, hfind2]
          rw [find?_map_key _ _ hpkey, hfind2]
          refine ⟨_, rfl, ?_, ?_⟩ <;>
            simp [updMessageText, hr0key]

/-- Witness for C4 on a concrete database (one prior call creates the row,
the second call updates it). -/
theorem C4_upsert_idempotent_witness :
    (storeChannelDb ⟨"C9".toList, "new".toList, some true⟩
        (storeChannelDb ⟨"C9".toList, "old".toList, some false⟩ initialDb).2).1 =
      (storeChannelDb ⟨"C9".toList, "old".toList, some false⟩ initialDb).1 :=
  ((C4_upsert_idempotent.1 initialDb ⟨"C9".toList, "old".toList, some false⟩
      ⟨"C9".toList, "new".toList, some true⟩ rfl (by decide))).1

/-- Claim C9: when `storeMessage` hits an existing row (same `ts` key), only
that row's `text` column changes — its other columns keep their values, every
other message row is untouched, and no other table or counter changes. -/
theorem C9_store_message_frame (db : Database) (m : SlackMsg) (cid : Nat)
    (hmem : ∃ r ∈ db.messages, r.slack_id = m.ts.getD []) :
    (storeMessageDb m cid db).2.channels = db.channels ∧
    (storeMessageDb m cid db).2.meetingNotes = db.meetingNotes ∧
    (storeMessageDb m cid db).2.actionItems = db.actionItems ∧
    (storeMessageDb m cid db).2.nextChannelId = db.nextChannelId ∧
    (storeMessageDb m cid db).2.nextMessageId = db.nextMessageId ∧
    (storeMessageDb m cid db).2.nextNotesId = db.nextNotesId ∧
    (storeMessageDb m cid db).2.nextItemId = db.nextItemId ∧
    (storeMessageDb m cid db).2.messages = db.messages.map (updMessageText m) ∧
    (∀ x ∈ db.messages, x.slack_id ≠ m.ts.getD [] →
      x ∈ (storeMessageDb m cid db).2.messages) ∧
    (∀ x ∈ db.messages, x.slack_id = m.ts.getD [] →
      ∃ x' ∈ (storeMessageDb m cid db).2.messages,
        x'.id = x.id ∧ x'.slack_id = x.slack_id ∧
        x'.channel_id = x.channel_id ∧ x'.user_id = x.user_id ∧
        x'.timestamp = x.timestamp ∧ x'.thread_ts = x.thread_ts ∧
        x'.has_attachments = x.has_attachments ∧ x'.text = m.text) := by
  obtain ⟨r, hr, hk⟩ := hmem
  have hfound : db.messages.find? (fun x => x.slack_id == m.ts.getD []) ≠ none := by
    intro hnone
    exact absurd (by simpa using hk) (by simpa using List.find?_eq_none.mp hnone r hr)
  cases h : db.messages.find? (fun x => x.slack_id == m.ts.getD []) with
  | none => exact absurd h hfound
  | some r0 =>
      refine ⟨by simp [storeMessageDb, h], by simp [storeMessageDb, h],
        by simp [storeMessageDb, h], by simp [storeMessageDb, h],
        by simp [storeMessageDb, h], by simp [storeMessageDb, h],
        by simp [storeMessageDb, h], by simp [storeMessageDb, h], ?_, ?_⟩
      · intro x hx hxk
        simp only [storeMessageDb, h]
        refine List.mem_map.mpr ⟨x, hx, ?_⟩
        simp only [updMessageText]
        rw [if_neg (by simpa using hxk)]
      · intro x hx hxk
        simp only [storeMessageDb, h]
        refine ⟨updMessageText m x, List.mem_map_of_mem _ hx, ?_⟩
        simp only [updMessageText]
        rw [if_pos (by simpa using hxk)]
        exact ⟨rfl, rfl, rfl, rfl, rfl, rfl, rfl, rfl⟩

/-- Witness for C9 on a one-row table. -/
theorem C9_store_message_frame_witness :
    (storeMessageDb ⟨some "1.0".toList, some "U2".toList, some "edited".toList,
        none, none⟩ 7
      ⟨[], [⟨1, "1.0".toList, 5, some "U1".toList, some "old".toList, none,
        none, false⟩], [], [], 1, 2, 1, 1⟩).2.channels = [] :=
  (C9_store_message_frame
    ⟨[], [⟨1, "1.0".toList, 5, some "U1".toList, some "old".toList, none,
      none, false⟩], [], [], 1, 2, 1, 1⟩
    ⟨some "1.0".toList, some "U2".toList, some "edited".toList, none, none⟩ 7
    ⟨⟨1, "1.0".toList, 5, some "U1".toList, some "old".toList, none,
      none, false⟩, by simp, by decide⟩).1

/-- Claim C5: every reachable `action_items` state contains only statuses in
`{open, completed, blocked}` — the creation sites all store `open` (also by
defaulting a missing status), and a `track_follow_up_status` update with an
invalid status throws before the `UPDATE`, leaving the state unchanged. -/
theorem C5_status_invariant :
    (∀ ops : List AppOp, StatusInv (runOps ops)) ∧
    (∀ (db : Database) (id : Nat) (st : List Char), st ∉ statusEnum →
      trackFollowUpStatusUpdate id st db =
        (db, some "Invalid status. Must be one of: open, completed, blocked")) := by
  constructor
  · have hpres : ∀ (db : Database) (op : AppOp),
        StatusInv db → StatusInv (applyOp db op) := by
      intro db op h
      cases op with
      | createFollowUp ch d a due =>
          intro r hr
          rcases List.mem_append.mp hr with h1 | h2
          · exact h r h1
          · have hrw : r = ⟨db.nextItemId, d, a, due,
                statusOrOpen (some "open".toList), ch, none⟩ := by
              simpa using h2
            subst hrw
            show statusOrOpen (some "open".toList) ∈ statusEnum
            decide
      | storeNoteItem ch d a =>
          intro r hr
          rcases List.mem_append.mp hr with h1 | h2
          · exact h r h1
          · have hrw : r = ⟨db.nextItemId, d, a, none, statusOrOpen none, ch,
                none⟩ := by simpa using h2
            subst hrw
            show statusOrOpen none ∈ statusEnum
            decide
      | storeExtractedItem ch d a =>
          intro r hr
          rcases List.mem_append.mp hr with h1 | h2
          · exact h r h1
          · have hrw : r = ⟨db.nextItemId, d, a, none, statusOrOpen none, ch,
                none⟩ := by simpa using h2
            subst hrw
            show statusOrOpen none ∈ statusEnum
            decide
      | updateStatus id st =>
          by_cases hst : st ∈ statusEnum
          · have h1 : applyOp db (.updateStatus id st) =
                { db with actionItems := db.actionItems.map (updStatus id st) } := by
              show (trackFollowUpStatusUpdate id st db).1 = _
              simp only [trackFollowUpStatusUpdate]
              rw [if_neg (not_not_intro hst)]
              split <;> rfl
            intro r hr
            rw [h1] at hr
            obtain ⟨x, hx, hxr⟩ := List.mem_map.mp hr
            by_cases hid : (x.id == id) = true
            · rw [updStatus, if_pos hid] at hxr; subst hxr; exact hst
            · rw [updStatus, if_neg hid] at hxr; subst hxr; exact h x hx
          · have h1 : applyOp db (.updateStatus id st) = db := by
              show (trackFollowUpStatusUpdate id st db).1 = _
              simp only [trackFollowUpStatusUpdate]
              rw [if_pos hst]
            intro r hr
            rw [h1] at hr
            exact h r hr
    have hfold : ∀ (l : List AppOp) (db : Database),
        StatusInv db → StatusInv (l.foldl applyOp db) := by
      intro l
      induction l with
      | nil => intro db hdb; simpa using hdb
      | cons op t ih => intro db hdb; exact ih _ (hpres db op hdb)
    intro ops
    exact hfold ops initialDb (by intro r hr; simp [initialDb] at hr)
  · intro db id st hst
    simp [trackFollowUpStatusUpdate, hst]

/-- Witness for C5: an invalid status is rejected and the store unchanged. -/
theorem C5_status_invariant_witness :
    trackFollowUpStatusUpdate 1 "done".toList initialDb =
      (initialDb, some "Invalid status. Must be one of: open, completed, blocked") :=
  C5_status_invariant.2 initialDb 1 "done".toList (by decide)

/-- Claim C8 (amended): every SQL statement issued by the repository is
drawn from a fixed finite set of texts, and all input values travel in the
parameter vector; the text depends only on which optional arguments are
*truthy* — `getActionItems` tests `if (status)`, so an absent status and a
present-but-empty status string both issue the unfiltered statement, and
otherwise the text never depends on the values of the input data. -/
theorem C8_fixed_statements :
    (∀ c, (storeChannelStmt c).1 ∈ repoStatementTexts) ∧
    (∀ m cid, (storeMessageStmt m cid).1 ∈ repoStatementTexts) ∧
    (∀ n cid, (storeMeetingNotesStmt n cid).1 ∈ repoStatementTexts) ∧
    (∀ it cid mid, (storeActionItemStmt it cid mid).1 ∈ repoStatementTexts) ∧
    (∀ cid lim, (getRecentMessagesStmt cid lim).1 ∈ repoStatementTexts) ∧
    (∀ st, (getActionItemsStmt st).1 ∈ repoStatementTexts) ∧
    (∀ c c', (storeChannelStmt c).1 = (storeChannelStmt c').1) ∧
    (∀ m cid m' cid', (storeMessageStmt m cid).1 = (storeMessageStmt m' cid').1) ∧
    (∀ n cid n' cid',
      (storeMeetingNotesStmt n cid).1 = (storeMeetingNotesStmt n' cid').1) ∧
    (∀ it cid mid it' cid' mid',
      (storeActionItemStmt it cid mid).1 = (storeActionItemStmt it' cid' mid').1) ∧
    (∀ cid lim cid' lim',
      (getRecentMessagesStmt cid lim).1 = (getRecentMessagesStmt cid' lim').1) ∧
    (∀ s1 s2 : Option (List Char), jsFalsy s1 = jsFalsy s2 →
      (getActionItemsStmt s1).1 = (getActionItemsStmt s2).1) := by
  refine ⟨fun c => ?_, fun m cid => ?_, fun n cid => ?_, fun it cid mid => ?_,
    fun cid lim => ?_, fun st => ?_, fun _ _ => rfl, fun _ _ _ _ => rfl,
    fun _ _ _ _ => rfl, fun _ _ _ _ _ _ => rfl, fun _ _ _ _ => rfl, ?_⟩
  · simp [storeChannelStmt, repoStatementTexts]
  · simp [storeMessageStmt, repoStatementTexts]
  · simp [storeMeetingNotesStmt, repoStatementTexts]
  · simp [storeActionItemStmt, repoStatementTexts]
  · simp [getRecentMessagesStmt, repoStatementTexts]
  · by_cases h : jsFalsy st = true
    · simp only [getActionItemsStmt]
      rw [if_pos h]
      simp [repoStatementTexts, getActionItemsStmt, jsFalsy]
    · simp only [getActionItemsStmt]
      rw [if_neg h]
      simp [repoStatementTexts, getActionItemsStmt, jsFalsy]
  · intro s1 s2 hts
    by_cases h1 : jsFalsy s1 = true
    · have h2 : jsFalsy s2 = true := hts ▸ h1
      simp only [getActionItemsStmt]
      rw [if_pos h1, if_pos h2]
    · have h2 : ¬ jsFalsy s2 = true := by rw [← hts]; exact h1
      simp only [getActionItemsStmt]
      rw [if_neg h1, if_neg h2]

/-- Witness for C8: two different truthy status filters give the same text. -/
theorem C8_fixed_statements_witness :
    (getActionItemsStmt (some "open".toList)).1 =
      (getActionItemsStmt (some "blocked".toList)).1 :=
  C8_fixed_statements.2.2.2.2.2.2.2.2.2.2.2
    (some "open".toList) (some "blocked".toList) rfl

/-- Counterexample to C8 as stated: the empty status string and `open` are
both *present*, yet `if (status)` treats the empty string as falsy and
issues the unfiltered statement — the statement text does depend on an input
value, not only on argument presence. -/
theorem C8_counterexample :
    (some ([] : List Char)).isSome = (some "open".toList).isSome ∧
    (getActionItemsStmt (some ([] : List Char))).1 ≠
      (getActionItemsStmt (some "open".toList)).1 := by
  exact ⟨rfl, by decide⟩

/-! ## Correctness of the executable regex matcher -/

theorem ciPrefixRest_eq_some (w : List Char) :
    ∀ (l r : List Char), ciPrefixRest w l = some r ↔
      ∃ w', l = w' ++ r ∧ w'.map lowerA = w := by
  induction w with
  | nil =>
      intro l r
      constructor
      · intro h
        exact ⟨[], by simpa using Option.some.inj h, rfl⟩
      · rintro ⟨w', hl, hw⟩
        have hnil : w' = [] := by
          cases w' with
          | nil => rfl
          | cons a b => simp at hw
        subst hnil
        simp only [List.nil_append] at hl
        subst hl
        rfl
  | cons p ps ih =>
      intro l r
      cases l with
      | nil =>
          constructor
          · intro h; simp [ciPrefixRest] at h
          · rintro ⟨w', hl, hw⟩
            cases w' with
            | nil => simp at hw
            | cons a b => simp at hl
      | cons c cs =>
          constructor
          · intro h
            by_cases hc : lowerA c = p
            · rw [show ciPrefixRest (p :: ps) (c :: cs) =
                  (if lowerA c = p then ciPrefixRest ps cs else none) from rfl,
                if_pos hc] at h
              obtain ⟨w', hl, hw⟩ := (ih cs r).mp h
              exact ⟨c :: w', by simp [hl], by simp [hw, hc]⟩
            · rw [show ciPrefixRest (p :: ps) (c :: cs) =
                  (if lowerA c = p then ciPrefixRest ps cs else none) from rfl,
                if_neg hc] at h
              exact absurd h (by simp)
          · rintro ⟨w', hl, hw⟩
            cases w' with
            | nil => simp at hw
            | cons a b =>
                simp only [List.cons_append, List.cons.injEq] at hl
                simp only [List.map_cons, List.cons.injEq] at hw
                obtain ⟨hac, hcs⟩ := hl
                obtain ⟨hap, hbw⟩ := hw
                subst hac
                rw [show ciPrefixRest (p :: ps) (c :: cs) =
                  (if lowerA c = p then ciPrefixRest ps cs else none) from rfl,
                  if_pos hap]
                exact (ih cs r).mpr ⟨b, hcs, hbw⟩

theorem ciPrefixRest_isSome (w : List Char) :
    ∀ l, (ciPrefixRest w l).isSome = true ↔
      ∃ post, l.map lowerA = w ++ post := by
  intro l
  rw [Option.isSome_iff_exists]
  constructor
  · rintro ⟨r, hr⟩
    obtain ⟨w', hl, hw⟩ := (ciPrefixRest_eq_some w l r).mp hr
    exact ⟨r.map lowerA, by rw [hl, List.map_append, hw]⟩
  · rintro ⟨post, hpost⟩
    refine ⟨l.drop w.length, (ciPrefixRest_eq_some w l _).mpr
      ⟨l.take w.length, (List.take_append_drop _ l).symm, ?_⟩⟩
    rw [List.map_take, hpost]
    exact List.take_left' rfl

theorem ObligWord_ne_nil {w : List Char} (h : ObligWord w) : w ≠ [] := by
  intro hnil
  subst hnil
  simp [ObligWord, obligWords] at h

theorem obligHere_iff (l : List Char) :
    obligHere l = true ↔
      ∃ w post, l = w ++ post ∧ ObligWord w ∧ boundaryAfter post = true := by
  rw [obligHere, List.any_eq_true]
  constructor
  · rintro ⟨w, hw, hmatch⟩
    cases h : ciPrefixRest w l with
    | none => rw [h] at hmatch; simp at hmatch
    | some rest =>
        rw [h] at hmatch
        obtain ⟨w', hl, hw'⟩ := (ciPrefixRest_eq_some w l rest).mp h
        exact ⟨w', rest, hl, by rw [ObligWord, hw']; exact hw, hmatch⟩
  · rintro ⟨w, post, hl, how, hb⟩
    refine ⟨w.map lowerA, how, ?_⟩
    have h := (ciPrefixRest_eq_some (w.map lowerA) l post).mpr ⟨w, hl, rfl⟩
    rw [h]
    exact hb

theorem lineTerm_not_wordChar {c : Char} (h : isLineTerm c = true) :
    wordChar c = false := by
  simp only [isLineTerm, Bool.or_eq_true, beq_iff_eq] at h
  rcases h with ((rfl | rfl) | rfl) | rfl <;> decide

theorem wordChar_not_lineTerm {c : Char} (h : wordChar c = true) :
    isLineTerm c = false := by
  cases hl : isLineTerm c with
  | false => rfl
  | true => rw [lineTerm_not_wordChar hl] at h; exact absurd h (by simp)

theorem getLastD_append {α : Type} (l1 l2 : List α) :
    ∀ d : α, (l1 ++ l2).getLastD d = l2.getLastD (l1.getLastD d) := by
  induction l1 with
  | nil => intro d; rfl
  | cons a t ih =>
      intro d
      rw [List.cons_append, List.getLastD_cons, ih a, List.getLastD_cons]

theorem scanOblig_iff (l : List Char) :
    ∀ prev, scanOblig prev l = true ↔ ObligTail prev l := by
  induction l with
  | nil =>
      intro prev
      constructor
      · intro h; exact absurd h (by simp [scanOblig])
      · rintro ⟨mid, w, post, hl, _, _, how, _⟩
        have h0 : mid = [] ∧ w = [] ∧ post = [] := by
          simpa [List.append_eq_nil] using hl.symm
        exact absurd h0.2.1 (ObligWord_ne_nil how)
  | cons c rest ih =>
      intro prev
      rw [show scanOblig prev (c :: rest) =
        ((!wordChar prev && obligHere (c :: rest)) ||
         (!isLineTerm c && scanOblig c rest)) from rfl]
      rw [Bool.or_eq_true, Bool.and_eq_true, Bool.and_eq_true]
      constructor
      · rintro (⟨hbw, hoh⟩ | ⟨hlt, hsc⟩)
        · obtain ⟨w, post, hl, how, hb⟩ := (obligHere_iff _).mp hoh
          exact ⟨[], w, post, by simpa using hl, by simp,
            by simpa using hbw, how, hb⟩
        · obtain ⟨mid, w, post, hl, hmid, hbc, how, hb⟩ := (ih c).mp hsc
          refine ⟨c :: mid, w, post, by simp [hl], ?_, ?_, how, hb⟩
          · intro x hx
            rcases List.mem_cons.mp hx with rfl | hx'
            · simpa using hlt
            · exact hmid x hx'
          · rw [List.getLastD_cons]; exact hbc
      · rintro ⟨mid, w, post, hl, hmid, hbc, how, hb⟩
        cases mid with
        | nil =>
            left
            refine ⟨by simpa using hbc, ?_⟩
            exact (obligHere_iff _).mpr ⟨w, post, by simpa using hl, how, hb⟩
        | cons c' mid' =>
            right
            simp only [List.cons_append, List.cons.injEq] at hl
            obtain ⟨hc, hrest⟩ := hl
            subst hc
            refine ⟨?_, ?_⟩
            · have := hmid c (by simp)
              simp [this]
            · refine (ih c).mpr ⟨mid', w, post, hrest, ?_, ?_, how, hb⟩
              · intro x hx; exact hmid x (List.mem_cons_of_mem _ hx)
              · rw [List.getLastD_cons] at hbc; exact hbc

theorem scanToGt_iff (l : List Char) :
    scanToGt l = true ↔
      ∃ inner rest, l = inner ++ '>' :: rest ∧ '>' ∉ inner ∧
        scanOblig '>' rest = true := by
  induction l with
  | nil =>
      constructor
      · intro h; exact absurd h (by simp [scanToGt])
      · rintro ⟨inner, rest, hl, _, _⟩
        cases inner <;> simp at hl
  | cons c t ih =>
      rw [show scanToGt (c :: t) =
        (if c = '>' then scanOblig '>' t else scanToGt t) from rfl]
      by_cases hc : c = '>'
      · subst hc
        rw [if_pos rfl]
        constructor
        · intro h; exact ⟨[], t, rfl, by simp, h⟩
        · rintro ⟨inner, rest, hl, hni, hsc⟩
          cases inner with
          | nil =>
              simp only [List.nil_append, List.cons.injEq] at hl
              rw [hl.2]; exact hsc
          | cons a b =>
              simp only [List.cons_append, List.cons.injEq] at hl
              exact absurd (hl.1 ▸ List.mem_cons_self a b) hni
      · rw [if_neg hc, ih]
        constructor
        · rintro ⟨inner, rest, hl, hni, hsc⟩
          refine ⟨c :: inner, rest, by simp [hl], ?_, hsc⟩
          intro hmem
          rcases List.mem_cons.mp hmem with h | h
          · exact hc h.symm
          · exact hni h
        · rintro ⟨inner, rest, hl, hni, hsc⟩
          cases inner with
          | nil =>
              simp only [List.nil_append, List.cons.injEq] at hl
              exact absurd hl.1 hc
          | cons a b =>
              simp only [List.cons_append, List.cons.injEq] at hl
              obtain ⟨hac, htb⟩ := hl
              refine ⟨b, rest, htb, ?_, hsc⟩
              intro hmem
              exact hni (List.mem_cons_of_mem _ hmem)

theorem MentionShape_two_le {m : List Char} (hm : MentionShape m) :
    2 ≤ m.length := by
  rcases hm with ⟨ws, rfl, hne, _⟩ | ⟨inner, rfl, _, _⟩
  · cases ws with
    | nil => exact absurd rfl hne
    | cons a b => simp
  · simp

theorem obligTail_absorb (ext : List Char) (prev : Char) (rest : List Char)
    (hw : ∀ c ∈ ext, wordChar c = true)
    (h : ObligTail (ext.getLastD prev) rest) : ObligTail prev (ext ++ rest) := by
  obtain ⟨mid, w, post, hl, hmid, hbc, how, hb⟩ := h
  refine ⟨ext ++ mid, w, post, by simp [hl], ?_, ?_, how, hb⟩
  · intro x hx
    rcases List.mem_append.mp hx with h1 | h2
    · exact wordChar_not_lineTerm (hw x h1)
    · exact hmid x h2
  · rw [getLastD_append]; exact hbc

theorem mentionCheck_iff (l : List Char) :
    mentionCheck l = true ↔ MentionAtHead l := by
  cases l with
  | nil =>
      constructor
      · intro h; exact absurd h (by simp [mentionCheck])
      · rintro ⟨m, rest, hl, hm, _⟩
        have h2 := MentionShape_two_le hm
        have hlen := congrArg List.length hl
        simp at hlen
        omega
  | cons c1 t =>
      cases t with
      | nil =>
          constructor
          · intro h; exact absurd h (by simp [mentionCheck])
          · rintro ⟨m, rest, hl, hm, _⟩
            have h2 := MentionShape_two_le hm
            have hlen := congrArg List.length hl
            simp at hlen
            omega
      | cons c2 rest =>
          by_cases h1 : c1 = '@'
          · subst h1
            have heq : mentionCheck ('@' :: c2 :: rest) =
                (wordChar c2 && scanOblig c2 rest) := by
              simp [mentionCheck]
            rw [heq, Bool.and_eq_true]
            constructor
            · rintro ⟨hwc, hsc⟩
              refine ⟨'@' :: [c2], rest, by simp,
                Or.inl ⟨[c2], rfl, by simp, by simpa using hwc⟩, ?_⟩
              have hg : (('@' :: [c2]).getLastD ' ') = c2 := by
                rw [List.getLastD_cons, List.getLastD_cons]; rfl
              rw [hg]
              exact (scanOblig_iff rest c2).mp hsc
            · rintro ⟨m, rest', hl, hm, hot⟩
              rcases hm with ⟨ws, rfl, hne, hwall⟩ | ⟨inner, rfl, _, _⟩
              · simp only [List.cons_append, List.cons.injEq, true_and] at hl
                cases ws with
                | nil => exact absurd rfl hne
                | cons a ws' =>
                    simp only [List.cons_append, List.cons.injEq] at hl
                    obtain ⟨hac, hrest⟩ := hl
                    subst hac
                    constructor
                    · exact hwall c2 (by simp)
                    · rw [hrest]
                      refine (scanOblig_iff _ c2).mpr ?_
                      refine obligTail_absorb ws' c2 rest'
                        (fun x hx => hwall x (List.mem_cons_of_mem _ hx)) ?_
                      have hg : ('@' :: c2 :: ws').getLastD ' ' =
                          ws'.getLastD c2 := by
                        rw [List.getLastD_cons, List.getLastD_cons]
                      rw [hg] at hot
                      exact hot
              · simp at hl
          · by_cases h2 : c1 = '<' ∧ c2 = '@'
            · obtain ⟨hc1, hc2⟩ := h2
              subst hc1; subst hc2
              have heq : mentionCheck ('<' :: '@' :: rest) =
                  (match rest with
                   | c3 :: rest2 => decide (c3 ≠ '>') && scanToGt (c3 :: rest2)
                   | [] => false) := by
                simp [mentionCheck]
              rw [heq]
              cases rest with
              | nil =>
                  constructor
                  · intro h; exact absurd h (by simp)
                  · rintro ⟨m, rest', hl, hm, _⟩
                    rcases hm with ⟨ws, rfl, hne, _⟩ | ⟨inner, rfl, hine, _⟩
                    · simp at hl
                    · have hlen := congrArg List.length hl
                      simp at hlen
              | cons c3 rest2 =>
                  rw [Bool.and_eq_true, decide_eq_true_eq]
                  constructor
                  · rintro ⟨hc3, hgt⟩
                    obtain ⟨inner, rest'', hl2, hni, hsc⟩ :=
                      (scanToGt_iff _).mp hgt
                    have hine : inner ≠ [] := by
                      cases inner with
                      | nil =>
                          simp only [List.nil_append, List.cons.injEq] at hl2
                          exact absurd hl2.1 hc3
                      | cons _ _ => simp
                    refine ⟨'<' :: '@' :: (inner ++ ['>']), rest'', ?_,
                      Or.inr ⟨inner, rfl, hine, hni⟩, ?_⟩
                    · simp only [List.cons_append, List.cons.injEq, true_and]
                      rw [hl2]
                      simp
                    · have hg : ('<' :: '@' :: (inner ++ ['>'])).getLastD ' ' =
                          '>' := by
                        rw [List.getLastD_cons, List.getLastD_cons,
                          List.getLastD_concat]
                      rw [hg]
                      exact (scanOblig_iff _ _).mp hsc
                  · rintro ⟨m, rest', hl, hm, hot⟩
                    rcases hm with ⟨ws, rfl, _, _⟩ | ⟨inner, rfl, hine, hni⟩
                    · simp at hl
                    · simp only [List.cons_append, List.cons.injEq,
                        true_and] at hl
                      have hl2 : c3 :: rest2 = inner ++ '>' :: rest' := by
                        rw [hl]; simp
                      have hc3 : c3 ≠ '>' := by
                        cases inner with
                        | nil => exact absurd rfl hine
                        | cons a b =>
                            simp only [List.cons_append, List.cons.injEq] at hl2
                            intro hgt
                            exact hni (by rw [← hgt, hl2.1]; simp)
                      refine ⟨hc3, (scanToGt_iff _).mpr
                        ⟨inner, rest', hl2, hni, ?_⟩⟩
                      have hg : ('<' :: '@' :: (inner ++ ['>'])).getLastD ' ' =
                          '>' := by
                        rw [List.getLastD_cons, List.getLastD_cons,
                          List.getLastD_concat]
                      rw [hg] at hot
                      exact (scanOblig_iff _ _).mpr hot
            · have heq : mentionCheck (c1 :: c2 :: rest) = false := by
                simp only [mentionCheck]
                rw [if_neg h1, if_neg h2]
              rw [heq]
              constructor
              · intro h; exact absurd h (by simp)
              · rintro ⟨m, rest', hl, hm, _⟩
                rcases hm with ⟨ws, rfl, _, _⟩ | ⟨inner, rfl, _, _⟩
                · simp only [List.cons_append, List.cons.injEq] at hl
                  exact absurd hl.1 h1
                · simp only [List.cons_append, List.cons.injEq] at hl
                  exact absurd ⟨hl.1, hl.2.1⟩ h2

theorem scanMention_iff_suffix (s : List Char) :
    scanMention s = true ↔
      ∃ pre suff, s = pre ++ suff ∧ mentionCheck suff = true := by
  induction s with
  | nil =>
      constructor
      · intro h; exact absurd h (by simp [scanMention])
      · rintro ⟨pre, suff, hl, hm⟩
        have hpre : pre = [] ∧ suff = [] := List.append_eq_nil.mp hl.symm
        rw [hpre.2] at hm
        exact absurd hm (by simp [mentionCheck])
  | cons c t ih =>
      rw [show scanMention (c :: t) =
        (mentionCheck (c :: t) || scanMention t) from rfl, Bool.or_eq_true]
      constructor
      · rintro (h | h)
        · exact ⟨[], c :: t, rfl, h⟩
        · obtain ⟨pre, suff, hl, hm⟩ := ih.mp h
          exact ⟨c :: pre, suff, by simp [hl], hm⟩
      · rintro ⟨pre, suff, hl, hm⟩
        cases pre with
        | nil =>
            left
            simp only [List.nil_append] at hl
            rw [hl]; exact hm
        | cons a pre' =>
            right
            simp only [List.cons_append, List.cons.injEq] at hl
            exact ih.mpr ⟨pre', suff, hl.2, hm⟩

/-- The executable matcher agrees with the positional reading of the regex:
a match exists iff the text decomposes into filler, a mention, same-line
filler, and a boundary-delimited obligation keyword. -/
theorem scanMention_iff (s : List Char) :
    scanMention s = true ↔ MentionObligPattern true s := by
  rw [scanMention_iff_suffix]
  constructor
  · rintro ⟨pre, suff, hl, hm⟩
    obtain ⟨m, rest, hsf, hshape, hot⟩ := (mentionCheck_iff suff).mp hm
    obtain ⟨mid, w, post, hrest, hmid, hbc, how, hb⟩ := hot
    refine ⟨pre, m, mid, w, post, ?_, hshape, fun _ => hmid, hbc, how, hb⟩
    rw [hl, hsf, hrest]
    simp [List.append_assoc]
  · rintro ⟨pre, m, mid, w, post, hl, hshape, hmid, hbc, how, hb⟩
    refine ⟨pre, m ++ (mid ++ w ++ post), by simpa [List.append_assoc] using hl, ?_⟩
    exact (mentionCheck_iff _).mpr
      ⟨m, mid ++ w ++ post, rfl, hshape,
        mid, w, post, rfl, hmid rfl, hbc, how, hb⟩

theorem hasSubstrCI_iff (pat : List Char) (s : List Char) :
    hasSubstrCI pat s = true ↔ KwSubstr pat s := by
  induction s with
  | nil =>
      rw [show hasSubstrCI pat [] = pat.isEmpty from rfl]
      constructor
      · intro h
        have : pat = [] := by simpa [List.isEmpty_iff] using h
        exact ⟨[], [], by simp [this]⟩
      · rintro ⟨pre, post, heq⟩
        have h0 : pre = [] ∧ pat = [] ∧ post = [] := by
          simpa [List.append_eq_nil] using heq.symm
        simp [h0.2.1]
  | cons c t ih =>
      rw [show hasSubstrCI pat (c :: t) =
        ((ciPrefixRest pat (c :: t)).isSome || hasSubstrCI pat t) from rfl,
        Bool.or_eq_true]
      constructor
      · rintro (h | h)
        · obtain ⟨post, hpost⟩ := (ciPrefixRest_isSome pat _).mp h
          exact ⟨[], post, by simpa using hpost⟩
        · obtain ⟨pre, post, heq⟩ := ih.mp h
          exact ⟨lowerA c :: pre, post, by simp [heq]⟩
      · rintro ⟨pre, post, heq⟩
        cases pre with
        | nil =>
            left
            exact (ciPrefixRest_isSome pat _).mpr ⟨post, by simpa using heq⟩
        | cons a pre' =>
            right
            simp only [List.map_cons, List.cons_append, List.cons.injEq] at heq
            exact ih.mpr ⟨pre', post, heq.2⟩

/-- The full extraction condition agrees with the amended claim predicate. -/
theorem actionCond_iff (text : List Char) :
    actionCond text = true ↔ C3AmendedPred text := by
  rw [actionCond, Bool.or_eq_true, Bool.or_eq_true, C3AmendedPred,
    hasSubstrCI_iff, hasSubstrCI_iff, scanMention_iff]
  tauto

/-- Claim C3 (amended): a message inside the requested timeframe is extracted
as an action item by `create_meeting_notes` and by `extract_action_items` iff
its lowercased text contains `action item` or `todo`, or it matches the
mention-then-obligation regex — where the obligation keyword must follow the
mention with no line terminator in between (the regex `.` does not cross
lines); no other message in the timeframe produces an action item. -/
theorem C3_extraction_condition (startTs endTs : List Char)
    (msgs : List SlackMsg) (m : SlackMsg) (hin : m ∈ msgs)
    (htf : inTimeframe startTs endTs m = true) :
    ((⟨textD m, m.user, none⟩ : NoteItem) ∈
        notesActionItems startTs endTs msgs ↔ C3AmendedPred (textD m)) ∧
    ((⟨textD m, assigneeOf (textD m) m.user, m.ts⟩ : NoteItem) ∈
        extractedActionItems startTs endTs msgs ↔ C3AmendedPred (textD m)) := by
  constructor
  · constructor
    · intro hmem
      obtain ⟨m', hm', heq⟩ := List.mem_map.mp hmem
      have hcond := (List.mem_filter.mp hm').2
      have htext : textD m' = textD m := by
        simpa [NoteItem.mk.injEq] using congrArg NoteItem.description heq
      rw [htext] at hcond
      exact (actionCond_iff _).mp hcond
    · intro hc
      refine List.mem_map_of_mem _ (List.mem_filter.mpr ⟨?_, ?_⟩)
      · exact List.mem_filter.mpr ⟨hin, htf⟩
      · exact (actionCond_iff _).mpr hc
  · constructor
    · intro hmem
      obtain ⟨m', hm', heq⟩ := List.mem_map.mp hmem
      have hcond := (List.mem_filter.mp hm').2
      have htext : textD m' = textD m := by
        simpa [NoteItem.mk.injEq] using congrArg NoteItem.description heq
      rw [htext] at hcond
      exact (actionCond_iff _).mp hcond
    · intro hc
      refine List.mem_map_of_mem _ (List.mem_filter.mpr ⟨?_, ?_⟩)
      · exact List.mem_filter.mpr ⟨hin, htf⟩
      · exact (actionCond_iff _).mpr hc

/-- Witness for C3 at a message containing `todo`. -/
theorem C3_extraction_condition_witness :
    ((⟨textD c3WitMsg, c3WitMsg.user, none⟩ : NoteItem) ∈
        notesActionItems "0".toList "10".toList [c3WitMsg] ↔
      C3AmendedPred (textD c3WitMsg)) ∧
    ((⟨textD c3WitMsg, assigneeOf (textD c3WitMsg) c3WitMsg.user,
        c3WitMsg.ts⟩ : NoteItem) ∈
        extractedActionItems "0".toList "10".toList [c3WitMsg] ↔
      C3AmendedPred (textD c3WitMsg)) :=
  C3_extraction_condition "0".toList "10".toList [c3WitMsg] c3WitMsg
    (by decide) (by decide)

/-- Counterexample to C3 as stated: in `<@U1>\nwill do.` the mention is
followed later in the text by `will`, and the lowercased text contains
neither keyword, so the claim's condition holds — but the regex does not
match across the newline and neither tool extracts an action item. -/
theorem C3_counterexample :
    inTimeframe "0".toList "10".toList c3CexMsg = true ∧
    C3ClaimPred (textD c3CexMsg) ∧
    notesActionItems "0".toList "10".toList [c3CexMsg] = [] ∧
    extractedActionItems "0".toList "10".toList [c3CexMsg] = [] := by
  refine ⟨by decide, ?_, by decide, by decide⟩
  refine Or.inr (Or.inr ?_)
  refine ⟨[], "<@U1>".toList, ['\n'], "will".toList, " do.".toList,
    by decide, Or.inr ⟨"U1".toList, by decide, by decide, by decide⟩,
    fun h => Bool.noConfusion h, by decide,
    show "will".toList.map lowerA ∈ obligWords by decide, by decide⟩

/-! ## Correctness of the first-mention capture -/

theorem takeWhile_append_all {α : Type} (p : α → Bool) (r : List α) (x : α)
    (t : List α) (hr : ∀ c ∈ r, p c = true) (hx : p x = false) :
    (r ++ x :: t).takeWhile p = r ∧ (r ++ x :: t).dropWhile p = x :: t := by
  induction r with
  | nil => simp [List.takeWhile_cons, List.dropWhile_cons, hx]
  | cons a r' ih =>
      have hpa : p a = true := hr a (by simp)
      obtain ⟨h1, h2⟩ := ih (fun c hc => hr c (List.mem_cons_of_mem _ hc))
      constructor
      · simp [List.takeWhile_cons, hpa, h1]
      · simp [List.dropWhile_cons, hpa, h2]

theorem mentionCapHere_iff (l : List Char) (r : List Char) :
    mentionCapHere l = some r ↔
      ∃ t, l = '<' :: '@' :: (r ++ '>' :: t) ∧ r ≠ [] ∧
        ∀ c ∈ r, isCapAlnum c = true := by
  cases l with
  | nil =>
      constructor
      · intro h; exact absurd h (by simp [mentionCapHere])
      · rintro ⟨t, hl, _, _⟩; simp at hl
  | cons c1 t1 =>
      cases t1 with
      | nil =>
          constructor
          · intro h; exact absurd h (by simp [mentionCapHere])
          · rintro ⟨t, hl, _, _⟩; simp at hl
      | cons c2 rest =>
          by_cases h12 : c1 = '<' ∧ c2 = '@'
          · obtain ⟨rfl, rfl⟩ := h12
            have heq : mentionCapHere ('<' :: '@' :: rest) =
                (match rest.dropWhile isCapAlnum with
                 | c3 :: _ =>
                     if c3 = '>' ∧ ¬(rest.takeWhile isCapAlnum).isEmpty then
                       some (rest.takeWhile isCapAlnum)
                     else none
                 | [] => none) := by
              simp [mentionCapHere]
            rw [heq]
            constructor
            · intro h
              cases hdw : rest.dropWhile isCapAlnum with
              | nil => rw [hdw] at h; exact absurd h (by simp)
              | cons d ds =>
                  rw [hdw] at h
                  have h' : (if d = '>' ∧ ¬(rest.takeWhile isCapAlnum).isEmpty = true
                      then some (rest.takeWhile isCapAlnum) else none) =
                      some r := h
                  by_cases hcond : d = '>' ∧ ¬(rest.takeWhile isCapAlnum).isEmpty = true
                  · rw [if_pos hcond] at h'
                    obtain ⟨hd, hne⟩ := hcond
                    subst hd
                    have hr : rest.takeWhile isCapAlnum = r := Option.some.inj h'
                    refine ⟨ds, ?_, ?_, ?_⟩
                    · have hsplit := List.takeWhile_append_dropWhile
                        (p := isCapAlnum) (l := rest)
                      rw [hr, hdw] at hsplit
                      rw [← hsplit]
                    · rw [← hr]
                      intro hnil
                      exact hne (by simp [hnil])
                    · intro c hc
                      rw [← hr] at hc
                      exact List.mem_takeWhile_imp hc
                  · rw [if_neg hcond] at h'
                    exact absurd h' (by simp)
            · rintro ⟨t, hl, hne, hcap⟩
              have hl2 : rest = r ++ '>' :: t := by
                simpa using hl
              obtain ⟨htw, hdw⟩ := takeWhile_append_all isCapAlnum r '>' t
                hcap (by decide)
              rw [hl2, hdw, htw]
              have hgoal : (if ('>' : Char) = '>' ∧ ¬r.isEmpty = true
                  then some r else none) = some r := by
                rw [if_pos ⟨rfl, by simpa [List.isEmpty_iff] using hne⟩]
              exact hgoal
          · have heq : mentionCapHere (c1 :: c2 :: rest) = none := by
              simp only [mentionCapHere]
              rw [if_neg h12]
            rw [heq]
            constructor
            · intro h; exact absurd h (by simp)
            · rintro ⟨t, hl, _, _⟩
              simp only [List.cons.injEq] at hl
              exact absurd ⟨hl.1, hl.2.1⟩ h12

theorem firstMention_none_iff (s : List Char) :
    firstMention s = none ↔ ∀ i r, ¬ CapMentionAt s i r := by
  induction s with
  | nil =>
      constructor
      · rintro _ i r ⟨t, hd, _, _⟩
        simp at hd
      · intro _; rfl
  | cons c t ih =>
      rw [show firstMention (c :: t) =
        (match mentionCapHere (c :: t) with
         | some r => some r
         | none => firstMention t) from rfl]
      cases hm : mentionCapHere (c :: t) with
      | some r0 =>
          constructor
          · intro h; exact absurd h (by simp)
          · intro hall
            exfalso
            refine hall 0 r0 ?_
            obtain ⟨t', hl, hne, hcap⟩ := (mentionCapHere_iff _ _).mp hm
            exact ⟨t', by simpa using hl, hne, hcap⟩
      | none =>
          rw [ih]
          constructor
          · intro hall i r hcap
            cases i with
            | zero =>
                obtain ⟨t', hd, hne, hc⟩ := hcap
                refine absurd ((mentionCapHere_iff (c :: t) r).mpr
                  ⟨t', by simpa using hd, hne, hc⟩) ?_
                rw [hm]; simp
            | succ i' =>
                exact hall i' r hcap
          · intro hall i r hcap
            exact hall (i + 1) r hcap

theorem firstMention_some_iff (s : List Char) (r : List Char) :
    firstMention s = some r ↔
      ∃ i, CapMentionAt s i r ∧
        ∀ j r', CapMentionAt s j r' → i ≤ j := by
  induction s with
  | nil =>
      constructor
      · intro h; exact absurd h (by simp [firstMention])
      · rintro ⟨i, ⟨t, hd, _, _⟩, _⟩
        simp at hd
  | cons c t ih =>
      rw [show firstMention (c :: t) =
        (match mentionCapHere (c :: t) with
         | some r => some r
         | none => firstMention t) from rfl]
      cases hm : mentionCapHere (c :: t) with
      | some r0 =>
          constructor
          · intro h
            have hr : r0 = r := Option.some.inj h
            subst hr
            obtain ⟨t', hl, hne, hcap⟩ := (mentionCapHere_iff _ _).mp hm
            exact ⟨0, ⟨t', by simpa using hl, hne, hcap⟩,
              fun j r' _ => Nat.zero_le j⟩
          · rintro ⟨i, hcap, hmin⟩
            have hi0 : i = 0 := by
              obtain ⟨t', hl, hne, hc⟩ := (mentionCapHere_iff _ _).mp hm
              exact Nat.le_zero.mp (hmin 0 r0 ⟨t', by simpa using hl, hne, hc⟩)
            subst hi0
            obtain ⟨t', hd, hne, hc⟩ := hcap
            have h2 := (mentionCapHere_iff (c :: t) r).mpr
              ⟨t', by simpa using hd, hne, hc⟩
            rw [hm] at h2
            simpa using h2
      | none =>
          rw [ih]
          have hshift : ∀ (j : Nat) (r' : List Char),
              CapMentionAt (c :: t) j r' → j ≠ 0 := by
            intro j r' hcap hj0
            subst hj0
            obtain ⟨t', hd, hne, hc⟩ := hcap
            have := (mentionCapHere_iff (c :: t) r').mpr
              ⟨t', by simpa using hd, hne, hc⟩
            rw [hm] at this
            simp at this
          constructor
          · rintro ⟨i, hcap, hmin⟩
            refine ⟨i + 1, hcap, ?_⟩
            intro j r' hj
            cases j with
            | zero => exact absurd rfl (hshift 0 r' hj)
            | succ j' => exact Nat.succ_le_succ (hmin j' r' hj)
          · rintro ⟨i, hcap, hmin⟩
            cases i with
            | zero => exact absurd rfl (hshift 0 r hcap)
            | succ i' =>
                refine ⟨i', hcap, ?_⟩
                intro j r' hj
                exact Nat.le_of_succ_le_succ (hmin (j + 1) r' hj)

/-- Claim C7: for every action item `extract_action_items` produces, the
assignee is the capture of the leftmost occurrence of `<@[A-Z0-9]+>` in the
message text when one exists — no later mention overrides it — and otherwise
it is the message author. -/
theorem C7_assignee_first_mention (startTs endTs : List Char)
    (msgs : List SlackMsg) (m : SlackMsg) (hin : m ∈ msgs)
    (htf : inTimeframe startTs endTs m = true)
    (hc : actionCond (textD m) = true) :
    (⟨textD m, assigneeOf (textD m) m.user, m.ts⟩ : NoteItem) ∈
      extractedActionItems startTs endTs msgs ∧
    ((∃ r i, assigneeOf (textD m) m.user = some r ∧
        CapMentionAt (textD m) i r ∧
        (∀ j r', CapMentionAt (textD m) j r' → i ≤ j)) ∨
      ((∀ i r, ¬ CapMentionAt (textD m) i r) ∧
        assigneeOf (textD m) m.user = m.user)) := by
  constructor
  · refine List.mem_map_of_mem _ (List.mem_filter.mpr ⟨?_, hc⟩)
    exact List.mem_filter.mpr ⟨hin, htf⟩
  · cases hfm : firstMention (textD m) with
    | some r =>
        left
        obtain ⟨i, hcap, hmin⟩ := (firstMention_some_iff _ _).mp hfm
        exact ⟨r, i, by simp [assigneeOf, hfm], hcap, hmin⟩
    | none =>
        right
        exact ⟨(firstMention_none_iff _).mp hfm, by simp [assigneeOf, hfm]⟩

/-- Witness for C7 at a message mentioning `<@U1>` before `<@U2>`. -/
theorem C7_assignee_first_mention_witness :
    (⟨textD c7WitMsg, assigneeOf (textD c7WitMsg) c7WitMsg.user,
        c7WitMsg.ts⟩ : NoteItem) ∈
      extractedActionItems "0".toList "10".toList [c7WitMsg] ∧
    ((∃ r i, assigneeOf (textD c7WitMsg) c7WitMsg.user = some r ∧
        CapMentionAt (textD c7WitMsg) i r ∧
        (∀ j r', CapMentionAt (textD c7WitMsg) j r' → i ≤ j)) ∨
      ((∀ i r, ¬ CapMentionAt (textD c7WitMsg) i r) ∧
        assigneeOf (textD c7WitMsg) c7WitMsg.user = c7WitMsg.user)) :=
  C7_assignee_first_mention "0".toList "10".toList [c7WitMsg] c7WitMsg
    (by decide) (by decide) (by decide)

end SI
